import Mathlib

/-!
Verification of the dead-letter-queue / edit-template core of
tasks-collector-tools against its specification.

The Python sources are shallowly embedded.  Python strings are modelled
as lists of characters (`Str`), files as association lists, and the two
effectful collaborators (the wall clock and `requests.post`) are passed
in explicitly: timestamps become ordinary string parameters and the
outcome of a POST becomes a value of an inductive type (`requests.post`
called without a `timeout` argument either raises a
`requests.exceptions.ConnectionError` -- DNS failure, connection
refused, connect timeout -- or returns a completed response carrying a
status code; `r.ok` is `status < 400`).
-/

/-- Python `str` modelled as a list of characters (code points). -/
abbrev Str := List Char

/-- The characters stripped by Python `str.strip()` (ASCII whitespace;
the code never feeds wider Unicode whitespace to `strip`). -/
def isPySpace (c : Char) : Bool :=
  c = ' ' || c = '\t' || c = '\n' || c = '\r' || c = '\x0b' || c = '\x0c'

/-- Python `str.lstrip()`. -/
def pyLStrip (s : Str) : Str := s.dropWhile isPySpace

/-- Python `str.rstrip()`. -/
def pyRStrip (s : Str) : Str := (s.reverse.dropWhile isPySpace).reverse

/-- Python `str.strip()`. -/
def pyStrip (s : Str) : Str := pyRStrip (pyLStrip s)

/-- Python `str.lower()` (the code only lowercases ASCII names). -/
def pyLower (s : Str) : Str := s.map Char.toLower

/-- `'\n'.join`-free concatenation: Python `''.join(lines)`. -/
def joinAll (ls : List Str) : Str := ls.flatten

/-- `value.replace('\n', '\r\n')` from `sanitize_string`. -/
def replaceLF : Str → Str
  | [] => []
  | c :: cs => if c = '\n' then '\r' :: '\n' :: replaceLF cs else c :: replaceLF cs

/-- Universal-newline translation performed by Python when reading a text
file: a `"\r\n"` pair and a lone `'\r'` both become `'\n'`. -/
def univNewlines : Str → Str
  | [] => []
  | '\r' :: '\n' :: cs => '\n' :: univNewlines cs
  | '\r' :: cs => '\n' :: univNewlines cs
  | c :: cs => c :: univNewlines cs

/-- Iterating a Python text file (`for line in f`) yields the text cut
after every `'\n'`, keeping the terminator; a last line without a
terminator is still yielded. -/
def splitLines : Str → List Str
  | [] => []
  | c :: cs =>
    if c = '\n' then ['\n'] :: splitLines cs
    else
      match splitLines cs with
      | [] => [[c]]
      | l :: ls => (c :: l) :: ls

/-- Removing the single trailing `'\n'` of a line, if present (what the
`$` anchor of `re.match` skips). -/
def chopNl : Str → Str
  | [] => []
  | ['\n'] => []
  | c :: cs => c :: chopNl cs

/-- Python `str.split(',')`. -/
def splitComma : Str → List Str
  | [] => [[]]
  | c :: cs =>
    if c = ',' then [] :: splitComma cs
    else
      match splitComma cs with
      | [] => [[c]]
      | h :: t => (c :: h) :: t

/-- Python string comparison `a < b`: lexicographic on code points, a
proper prefix is smaller. -/
def pyStrLt : Str → Str → Bool
  | _, [] => false
  | [], _ :: _ => true
  | a :: as, b :: bs => a < b || (a = b && pyStrLt as bs)

/-- Non-strict counterpart of `pyStrLt`. -/
def pyStrLe (a b : Str) : Bool := pyStrLt a b || a = b

/-- Stable insertion used to model Python `sorted`. -/
def pyInsert (x : Str) : List Str → List Str
  | [] => [x]
  | y :: ys => if pyStrLe x y then x :: y :: ys else y :: pyInsert x ys

/-- Python `sorted(names)`.  Python uses a stable sort driven by `<`;
since `pyStrLe` is a decidable linear order the sorted output is unique,
so insertion sort produces the same list. -/
def pySorted : List Str → List Str
  | [] => []
  | x :: xs => pyInsert x (pySorted xs)

/-- Python `haystack.find(needle)` as an `Option`al index (`-1` becomes
`none`). -/
def findSub (needle : Str) : Str → Option Nat
  | [] => if needle.isPrefixOf [] then some 0 else none
  | c :: ts =>
    if needle.isPrefixOf (c :: ts) then some 0
    else (findSub needle ts).map (· + 1)

/-- `template[:i].count('\n')`. -/
def countNl (s : Str) : Nat := s.count '\n'

/-! ## Dead-letter queue model

`utils.py` (the shared implementation) and the older local copies in
`journal.py` / `update.py` are embedded separately because they differ
in two load-bearing details: which directory gets created and which path
the collision loop tests. -/

/-- Content of a queued file, `json.dump({'payload': ..., 'meta': ...})`.
Payload and metadata are modelled as string-to-string association lists
(the JSON object structure the tools actually write). -/
structure DeadLetterFile where
  payload : List (Str × Str)
  meta : List (Str × Str)
deriving DecidableEq

/-- Minimal filesystem: existing directories plus full path to content.
Ancestor closure of `dirs` is not tracked; only membership of the queue
directory and its parent matter to the embedded functions. -/
structure FS where
  dirs : List Str
  files : List (Str × DeadLetterFile)
deriving DecidableEq

/-- `os.path.exists`: true for directories and files alike. -/
def fsExists (fs : FS) (p : Str) : Bool :=
  fs.dirs.any (fun d => d = p) || fs.files.any (fun e => e.1 = p)

/-- `os.path.join(dir, name)` for a relative `name`. -/
def joinPath (dir name : Str) : Str := dir ++ '/' :: name

/-- `os.path.dirname`: everything before the last '/' (the paths the
tools build always have at least two components, so the root-path edge
case of the real function is never exercised). -/
def dirname (p : Str) : Str :=
  (((p.reverse.dropWhile (fun c => !(c = '/'))).drop 1)).reverse

/-- `os.makedirs(d, exist_ok=True)`; ancestors of `d` are irrelevant to
every claim, so only `d` itself is recorded. -/
def makeDirs (fs : FS) (d : Str) : FS := { fs with dirs := d :: fs.dirs }

/-- `utils.ensure_directory_exists(file_path)`: creates
`os.path.dirname(file_path)` when that is non-empty and missing. -/
def ensure_directory_exists (fs : FS) (file_path : Str) : FS :=
  let directory := dirname file_path
  if directory ≠ [] ∧ fsExists fs directory = false then makeDirs fs directory else fs

/-- The candidate filename for collision index `i`:
`basename.json`, then `basename-1.json`, `basename-2.json`, ... -/
def mkName (basename : Str) : Nat → Str
  | 0 => basename ++ String.toList ".json"
  | Nat.succ i => basename ++ '-' :: (Nat.succ i).repr.toList ++ String.toList ".json"

/-- The `while os.path.exists(...)` collision loop: first index whose
candidate name is free.  `fuel` bounds the recursion; callers pass more
candidates than there are existing files, which keeps the model total
exactly where the Python loop terminates. -/
def firstFreeFrom (taken : Str → Bool) (basename : Str) : Nat → Nat → Nat
  | 0, i => i
  | Nat.succ fuel, i =>
    if taken (mkName basename i) then firstFreeFrom taken basename fuel (i + 1) else i

/-- Replace-or-append write of a file (`open(..., "w")` + `json.dump`). -/
def setFile : List (Str × DeadLetterFile) → Str → DeadLetterFile → List (Str × DeadLetterFile)
  | [], p, c => [(p, c)]
  | e :: rest, p, c => if e.1 = p then (p, c) :: rest else e :: setFile rest p c

inductive PyErr
  | fileNotFound
  | attributeError
deriving DecidableEq

/-- Decidable equality for `Except` results (needed to evaluate the
enqueue models on concrete inputs). -/
instance exceptDecEq {e a : Type} [DecidableEq e] [DecidableEq a] :
    DecidableEq (Except e a) := fun x y =>
  match x, y with
  | Except.error u, Except.error v =>
    if h : u = v then Decidable.isTrue (by rw [h])
    else Decidable.isFalse (by intro hh; injection hh; contradiction)
  | Except.error _, Except.ok _ => Decidable.isFalse (by intro hh; injection hh)
  | Except.ok _, Except.error _ => Decidable.isFalse (by intro hh; injection hh)
  | Except.ok u, Except.ok v =>
    if h : u = v then Decidable.isTrue (by rw [h])
    else Decidable.isFalse (by intro hh; injection hh; contradiction)

/-- `utils.queue_dead_letter(payload, path, metadata, file_type)`.
`tsName` stands for `datetime.now().strftime(f"%Y-%m-%d_%H%M%S_{file_type}")`.
Note that `ensure_directory_exists(path)` is called with the queue
directory itself, so only `dirname(path)` -- the *parent* -- is created;
the final `open` then raises `FileNotFoundError` whenever the queue
directory itself does not exist. -/
def queue_dead_letter (fs : FS) (path tsName : Str) (payload meta : List (Str × Str)) :
    Except PyErr (FS × Str) :=
  let fs1 := ensure_directory_exists fs path
  let i := firstFreeFrom (fun n => fsExists fs1 (joinPath path n)) tsName (fs1.files.length + 1) 0
  let name := mkName tsName i
  if path ∈ fs1.dirs then
    Except.ok ({ fs1 with files := setFile fs1.files (joinPath path name) ⟨payload, meta⟩ }, name)
  else
    Except.error PyErr.fileNotFound

/-- The local `queue_dead_letter` duplicated inside `journal.py` and
`update.py` (they differ from each other only in the timestamp prefix).
Directory creation handles `path` itself, but the collision loop tests
`os.path.exists(name)` on the bare filename -- resolved against the
current working directory `cwd`, not against the queue directory.  The
final write is modelled as succeeding because the preceding `makedirs`
guarantees the queue directory exists (assuming, as the tools do, that
the queue path is not a regular file). -/
def journal_queue_dead_letter (fs : FS) (cwd path tsName : Str)
    (payload meta : List (Str × Str)) : FS × Str :=
  let fs1 := if fsExists fs path then fs else makeDirs fs path
  let i := firstFreeFrom (fun n => fsExists fs1 (joinPath cwd n)) tsName (fs1.files.length + 1) 0
  let name := mkName tsName i
  ({ fs1 with files := setFile fs1.files (joinPath path name) ⟨payload, meta⟩ }, name)

/-- Outcome of the `requests.post` inside `send_dead_letter` (together
with the preceding `json.load`): either an exception is raised before
the `os.unlink` line, or the POST returns a completed response with some
status code. -/
inductive SendOutcome
  | raises
  | completes (status : Nat)
deriving DecidableEq

def isCompletes : SendOutcome → Bool
  | SendOutcome.raises => false
  | SendOutcome.completes _ => true

/-- The queue directory listing: basename to file content. -/
abbrev Queue := List (Str × DeadLetterFile)

/-- `os.unlink` of one entry. -/
def removeEntry (q : Queue) (n : Str) : Queue := q.filter (fun e => !(e.1 = n))

/-- The `for name in sorted(files)` loop of `send_dead_letters`: each
entry is POSTed; if the POST raises, the exception propagates, aborting
the pass with this file and all later ones still queued; if it
completes -- with any HTTP status -- `os.unlink` removes the file.
Returns (remaining queue, names whose POST completed in order, whether
the pass ran to completion). -/
def sendList (out : Str → SendOutcome) : Queue → List Str → Queue × List Str × Bool
  | q, [] => (q, [], true)
  | q, n :: rest =>
    match out n with
    | SendOutcome.raises => (q, [], false)
    | SendOutcome.completes _ =>
      match sendList out (removeEntry q n) rest with
      | (qf, posted, okAll) => (qf, n :: posted, okAll)

/-- `utils.send_dead_letters` / the identical copies in `journal.py` and
`update.py`: walk the queue directory and send every file in
lexicographically sorted name order. -/
def send_dead_letters (q : Queue) (out : Str → SendOutcome) : Queue × List Str × Bool :=
  sendList out q (pySorted (q.map Prod.fst))

/-! ## Edit-template round-tripper: observation.py -/

/-- A Python dict with string keys whose values are None or str
(observation's payload).  Insertion order is significant, as in Python. -/
abbrev ObsDict := List (Str × Option Str)

/-- Dict assignment `payload[k] = v`: overwrite in place or append. -/
def dictSet : ObsDict → Str → Option Str → ObsDict
  | [], k, v => [(k, v)]
  | e :: rest, k, v => if e.1 = k then (k, v) :: rest else e :: dictSet rest k v

/-- Dict lookup `payload[k]` (as an option of the stored value). -/
def dictGet (d : ObsDict) (k : Str) : Option (Option Str) :=
  (d.find? (fun e => e.1 = k)).map Prod.snd

/-- `meta_re = re.compile(r'^> (Date|Thread|Type): (.*)$')` applied via
`re.match` to one line of the file: returns (group 1, group 2).  `.`
does not cross a newline and `$` also matches just before a single
trailing newline, so the line minus its terminator must be
newline-free and start with one of the three `> Key: ` prefixes. -/
def obsMetaMatch (line : Str) : Option (Str × Str) :=
  if (chopNl line).contains '\n' then none
  else if (String.toList "> Date: ").isPrefixOf (chopNl line) then
    some (String.toList "Date", (chopNl line).drop 8)
  else if (String.toList "> Thread: ").isPrefixOf (chopNl line) then
    some (String.toList "Thread", (chopNl line).drop 10)
  else if (String.toList "> Type: ").isPrefixOf (chopNl line) then
    some (String.toList "Type", (chopNl line).drop 8)
  else none

/-- `title_re = re.compile(r'^# (Situation|Interpretation|Approach)')`:
`re.match` is a prefix match and group 1 captures just the keyword. -/
def obsTitleMatch (line : Str) : Option Str :=
  if (String.toList "# Situation").isPrefixOf line then some (String.toList "Situation")
  else if (String.toList "# Interpretation").isPrefixOf line then
    some (String.toList "Interpretation")
  else if (String.toList "# Approach").isPrefixOf line then some (String.toList "Approach")
  else none

/-- `observation.add_meta_to_payload`: `Date` is renamed `pub_date`,
keys are lower-cased. -/
def add_meta_to_payload (payload : ObsDict) (name item : Str) : ObsDict :=
  let name2 := if name = String.toList "Date" then String.toList "pub_date" else name
  dictSet payload (pyLower name2) (some item)

/-- `observation.add_stack_to_payload`: joined accumulated lines,
stripped. -/
def add_stack_to_payload (payload : ObsDict) (name : Str) (lines : List Str) : ObsDict :=
  dictSet payload (pyLower name) (some (pyStrip (joinAll lines)))

/-- The initial payload dict of `observation.main`. -/
def obsInitPayload : ObsDict :=
  [(String.toList "pub_date", none), (String.toList "thread", none),
   (String.toList "type", none), (String.toList "situation", none),
   (String.toList "interpretation", none), (String.toList "approach", none)]

/-- The parse loop of `observation.main` over the file's lines, carrying
`(current_name, current_stack)`.  A line matching neither regex --
including a line starting with `#` that is not a recognized header -- is
appended to the stack. -/
def obsParseLines : List Str → ObsDict → Option Str → List Str → ObsDict
  | [], payload, curName, stack =>
    match curName with
    | some n => add_stack_to_payload payload n stack
    | none => payload
  | line :: rest, payload, curName, stack =>
    match obsMetaMatch line with
    | some (g1, g2) =>
      obsParseLines rest (add_meta_to_payload payload (pyStrip g1) (pyStrip g2)) curName stack
    | none =>
      match obsTitleMatch line with
      | some name =>
        let payload2 :=
          match curName with
          | some n => add_stack_to_payload payload n stack
          | none => payload
        obsParseLines rest payload2 (some (pyStrip name)) []
      | none => obsParseLines rest payload curName (stack ++ [line])

/-- `utils.sanitize_string`: falsy values (None, empty string) become
None, anything else is stripped and its bare newlines become CRLF. -/
def sanitize_string (v : Option Str) : Option Str :=
  match v with
  | none => none
  | some s => if s = [] then none else some (replaceLF (pyStrip s))

/-- `utils.sanitize_fields` with the default (empty) mapping, as
observation.py calls it. -/
def sanitize_fields (payload : ObsDict) : ObsDict :=
  payload.map (fun e => (e.1, sanitize_string e.2))

/-- Parsing the edited observation document: text-mode read (universal
newlines), line iteration, the parse loop, then `sanitize_fields`. -/
def obsParseDoc (doc : Str) : ObsDict :=
  sanitize_fields (obsParseLines (splitLines (univNewlines doc)) obsInitPayload none [])

/-- `observation.TEMPLATE` with its six format fields spliced in. -/
def obsTemplate (pub_date thread ty situation interpretation approach : Str) : Str :=
  String.toList "\n> Date: " ++ pub_date ++
  String.toList "\n> Thread: " ++ thread ++
  String.toList "\n> Type: " ++ ty ++
  String.toList "\n\n# Situation (What happened?)\n\n" ++ situation ++
  String.toList "\n\n# Interpretation (How you saw it, what you felt?)\n\n" ++ interpretation ++
  String.toList "\n\n# Approach (How should you approach it in the future?)\n\n" ++ approach ++
  String.toList "\n\n"

/-- `observation.template_from_payload`: `TEMPLATE.format(**payload).lstrip()`. -/
def template_from_payload (pub_date thread ty situation interpretation approach : Str) : Str :=
  pyLStrip (obsTemplate pub_date thread ty situation interpretation approach)

/-- The round trip of C4: render the record with
`template_from_payload`, write it to the temp file, read it back line by
line and parse. -/
def obsRoundTrip (pub_date thread ty situation interpretation approach : Str) : ObsDict :=
  obsParseDoc (template_from_payload pub_date thread ty situation interpretation approach)

/-! ## reflect.py parser -/

/-- `reflect.title_re = re.compile(r'^##? (Reflection|Better|Best)')`
via `re.match`: prefix match, group 1 is the keyword. -/
def reflectTitleMatch (line : Str) : Option Str :=
  if (String.toList "# Reflection").isPrefixOf line then some (String.toList "Reflection")
  else if (String.toList "## Reflection").isPrefixOf line then some (String.toList "Reflection")
  else if (String.toList "# Better").isPrefixOf line then some (String.toList "Better")
  else if (String.toList "## Better").isPrefixOf line then some (String.toList "Better")
  else if (String.toList "# Best").isPrefixOf line then some (String.toList "Best")
  else if (String.toList "## Best").isPrefixOf line then some (String.toList "Best")
  else none

/-- `reflect.empty_point_re = re.compile(r'^\s*\-\s*(?:\[\s+\])\s*')`
via `re.match` (a prefix match): optional whitespace, `-`, optional
whitespace, `[`, at least one whitespace, `]`. -/
def emptyPointMatch (line : Str) : Bool :=
  match line.dropWhile isPySpace with
  | '-' :: r1 =>
    match r1.dropWhile isPySpace with
    | '[' :: r2 =>
      match r2 with
      | c :: _ =>
        if isPySpace c then
          match r2.dropWhile isPySpace with
          | ']' :: _ => true
          | _ => false
        else false
      | [] => false
    | _ => false
  | _ => false

/-- `reflect.add_stack_to_payload`: `Reflection` stores under key
`good` (the callers below never pass a missing name). -/
def reflect_add_stack (payload : ObsDict) (name : Str) (lines : List Str) : ObsDict :=
  let name2 := if name = String.toList "Reflection" then String.toList "good" else name
  dictSet payload (pyLower name2) (some (pyStrip (joinAll lines)))

/-- reflect.main's initial payload. -/
def reflectInitPayload : ObsDict :=
  [(String.toList "good", none), (String.toList "better", none),
   (String.toList "best", none)]

/-- `line.strip().startswith('#')`. -/
def stripStartsWithHash (line : Str) : Bool :=
  match pyStrip line with
  | '#' :: _ => true
  | _ => false

/-- The parse loop of `reflect.main`: a recognized header flushes and
opens a section; any other line whose stripped text starts with `#`
while a section is open flushes and *closes* the section; lines matching
`empty_point_re` (unchecked checkbox items) are dropped; everything else
is accumulated. -/
def reflectParseLines : List Str → ObsDict → Option Str → List Str → ObsDict
  | [], payload, curName, stack =>
    match curName with
    | some n => reflect_add_stack payload n stack
    | none => payload
  | line :: rest, payload, curName, stack =>
    match reflectTitleMatch line with
    | some name =>
      let payload2 :=
        match curName with
        | some n => reflect_add_stack payload n stack
        | none => payload
      reflectParseLines rest payload2 (some (pyStrip name)) []
    | none =>
      match curName with
      | some n =>
        if stripStartsWithHash line then
          reflectParseLines rest (reflect_add_stack payload n stack) none []
        else if emptyPointMatch line then
          reflectParseLines rest payload curName stack
        else
          reflectParseLines rest payload curName (stack ++ [line])
      | none =>
        if emptyPointMatch line then reflectParseLines rest payload curName stack
        else reflectParseLines rest payload curName (stack ++ [line])

/-! ## journal.py parser -/

/-- A value in journal.py's payload dict: None, a string, a list of
strings (tags), or the initial `datetime.now()` object. -/
inductive JV
  | jnone
  | jstr (s : Str)
  | jlist (l : List Str)
  | jdatetime
deriving DecidableEq

/-- journal.py's payload dict. -/
abbrev JDict := List (Str × JV)

def jdictSet : JDict → Str → JV → JDict
  | [], k, v => [(k, v)]
  | e :: rest, k, v => if e.1 = k then (k, v) :: rest else e :: jdictSet rest k v

def jdictGet (d : JDict) (k : Str) : Option JV :=
  (d.find? (fun e => e.1 = k)).map Prod.snd

/-- `journal.meta_re = re.compile(r'^> (Thread|Published|Tags): (.*)$')`. -/
def journalMetaMatch (line : Str) : Option (Str × Str) :=
  if (chopNl line).contains '\n' then none
  else if (String.toList "> Thread: ").isPrefixOf (chopNl line) then
    some (String.toList "Thread", (chopNl line).drop 10)
  else if (String.toList "> Published: ").isPrefixOf (chopNl line) then
    some (String.toList "Published", (chopNl line).drop 13)
  else if (String.toList "> Tags: ").isPrefixOf (chopNl line) then
    some (String.toList "Tags", (chopNl line).drop 8)
  else none

/-- `journal.title_re = re.compile(r'^# (Comment)')`. -/
def journalTitleMatch (line : Str) : Option Str :=
  if (String.toList "# Comment").isPrefixOf line then some (String.toList "Comment")
  else none

/-- `journal.add_meta_to_payload`: tags are comma-split into a list. -/
def journal_add_meta (payload : JDict) (name item : Str) : JDict :=
  if pyLower name = String.toList "tags" then
    jdictSet payload (pyLower name) (JV.jlist (splitComma item))
  else
    jdictSet payload (pyLower name) (JV.jstr item)

/-- `journal.add_stack_to_payload`. -/
def journal_add_stack (payload : JDict) (name : Str) (lines : List Str) : JDict :=
  jdictSet payload (pyLower name) (JV.jstr (pyStrip (joinAll lines)))

/-- journal.main's initial payload: `thread` from the CLI argument,
`published` the `datetime.now()` object. -/
def journalInitPayload (thread0 : Str) : JDict :=
  [(String.toList "comment", JV.jnone), (String.toList "thread", JV.jstr thread0),
   (String.toList "published", JV.jdatetime)]

/-- The parse loop of journal.main. -/
def journalParseLines : List Str → JDict → Option Str → List Str → JDict
  | [], payload, curName, stack =>
    match curName with
    | some n => journal_add_stack payload n stack
    | none => payload
  | line :: rest, payload, curName, stack =>
    match journalMetaMatch line with
    | some (g1, g2) =>
      journalParseLines rest (journal_add_meta payload (pyStrip g1) (pyStrip g2)) curName stack
    | none =>
      match journalTitleMatch line with
      | some name =>
        let payload2 :=
          match curName with
          | some n => journal_add_stack payload n stack
          | none => payload
        journalParseLines rest payload2 (some (pyStrip name)) []
      | none => journalParseLines rest payload curName (stack ++ [line])

/-- `utils.sanitize_string` on a journal value.  `if value` keeps None
as None; on a (truthy) string it strips and rewrites newlines; the
datetime object and a non-empty list are truthy but have no `.strip`
method, so `value.strip()` raises AttributeError -- exactly what
journal.main hits when no `> Published:` line rewrote the initial
`datetime.now()` value. -/
def jSanitizeString : JV → Except PyErr JV
  | JV.jnone => Except.ok JV.jnone
  | JV.jstr s =>
    Except.ok (if s = [] then JV.jnone else JV.jstr (replaceLF (pyStrip s)))
  | JV.jlist l =>
    if l = [] then Except.ok JV.jnone else Except.error PyErr.attributeError
  | JV.jdatetime => Except.error PyErr.attributeError

/-- `utils.sanitize_list_of_strings` on a journal value: strip each
element and drop the empty results.  `map(str.strip, value)` over a
non-list raises (only the comma-split tags list reaches it in
journal.main). -/
def jSanitizeList : JV → Except PyErr JV
  | JV.jlist l =>
    Except.ok (JV.jlist ((l.map pyStrip).filter (fun s => !(s = []))))
  | _ => Except.error PyErr.attributeError

/-- `sanitize_fields(payload, {'tags': sanitize_list_of_strings})` as
journal.main calls it: the dict comprehension applies the per-key
sanitizer in insertion order and the first raise propagates out of
main uncaught. -/
def journal_sanitize_fields : JDict → Except PyErr JDict
  | [] => Except.ok []
  | (k, v) :: rest =>
    match (if k = String.toList "tags" then jSanitizeList v
           else jSanitizeString v) with
    | Except.error err => Except.error err
    | Except.ok v2 =>
      match journal_sanitize_fields rest with
      | Except.error err => Except.error err
      | Except.ok rest2 => Except.ok ((k, v2) :: rest2)

/-- The raw payload after journal.main's parse loop, before
sanitize_fields. -/
def journalRawPayload (thread0 : Str) (doc : Str) : JDict :=
  journalParseLines (splitLines (univNewlines doc)) (journalInitPayload thread0) none []

/-- Parsing + sanitizing the edited journal document; `Except.error`
is the uncaught exception sanitize_fields may raise. -/
def journalParseDoc (thread0 : Str) (doc : Str) : Except PyErr JDict :=
  journal_sanitize_fields (journalRawPayload thread0 doc)

/-- Python truthiness test used by `if not payload['comment']`. -/
def jvFalsy : JV → Bool
  | JV.jnone => true
  | JV.jstr s => s = []
  | JV.jlist l => l = []
  | JV.jdatetime => false

/-- journal.main from the end of the parse loop: sanitize_fields, then
the `if not payload['comment']` test.  `Except.error` = the program
crashes with an uncaught exception before reaching the test;
`Except.ok true` = the no-change branch (message + exit 0, no network
I/O); `Except.ok false` = proceed to submission. -/
def journalMainOutcome (thread0 : Str) (doc : Str) : Except PyErr Bool :=
  match journalParseDoc thread0 doc with
  | Except.error err => Except.error err
  | Except.ok payload =>
    Except.ok (match jdictGet payload (String.toList "comment") with
      | some v => jvFalsy v
      | none => false)

/-- Shape invariant of journal.main's payload throughout the parse
loop: the three initial keys stay in place, `comment` holds None or a
string, `thread` a string, `published` the datetime object or a
string, and at most one extra entry -- a `tags` list -- is appended. -/
abbrev journalShape (d : JDict) : Prop :=
  ∃ c t p rest2,
    (c = JV.jnone ∨ ∃ s, c = JV.jstr s) ∧
    (∃ s, t = JV.jstr s) ∧
    (p = JV.jdatetime ∨ ∃ s, p = JV.jstr s) ∧
    (rest2 = [] ∨ ∃ l, rest2 = [(String.toList "tags", JV.jlist l)]) ∧
    d = (String.toList "comment", c) :: (String.toList "thread", t) ::
      (String.toList "published", p) :: rest2

/-! ## update.py parser -/

/-- `update.meta_re = re.compile(r'^> (Nonexistent): (.*)$')`. -/
def updateMetaMatch (line : Str) : Option (Str × Str) :=
  if (chopNl line).contains '\n' then none
  else if (String.toList "> Nonexistent: ").isPrefixOf (chopNl line) then
    some (String.toList "Nonexistent", (chopNl line).drop 15)
  else none

/-- `update.title_re = re.compile(r'^# (Comment)')`. -/
def updateTitleMatch (line : Str) : Option Str :=
  if (String.toList "# Comment").isPrefixOf line then some (String.toList "Comment")
  else none

/-- update.main's payload, restricted to the keys the loop can touch:
`update.add_meta_to_payload` is `pass`, so meta lines are consumed
without effect, and only the `Comment` section writes.  The untouched
`observation` key (the CLI-supplied integer id) is omitted. -/
def updateInitPayload : ObsDict := [(String.toList "comment", none)]

/-- The parse loop of update.main. -/
def updateParseLines : List Str → ObsDict → Option Str → List Str → ObsDict
  | [], payload, curName, stack =>
    match curName with
    | some n => add_stack_to_payload payload n stack
    | none => payload
  | line :: rest, payload, curName, stack =>
    match updateMetaMatch line with
    | some _ => updateParseLines rest payload curName stack
    | none =>
      match updateTitleMatch line with
      | some name =>
        let payload2 :=
          match curName with
          | some n => add_stack_to_payload payload n stack
          | none => payload
        updateParseLines rest payload2 (some (pyStrip name)) []
      | none => updateParseLines rest payload curName (stack ++ [line])

/-- Parsing the edited update document (update.main calls no
sanitize_fields). -/
def updateParseDoc (doc : Str) : ObsDict :=
  updateParseLines (splitLines (univNewlines doc)) updateInitPayload none []

/-- The no-change branch condition of update.main:
`if payload['comment'] == ''` -- equality with the empty string, so a
`None` comment (section never seen) does not trigger it. -/
def updateSkips (doc : Str) : Bool :=
  match dictGet (updateParseDoc doc) (String.toList "comment") with
  | some (some s) => s = []
  | some none => false
  | none => false

/-! ## Submission phase and cursor helper -/

/-- `DEAD_LETTER_DIRECTORY = os.path.expanduser('~/.tasks/queue')`;
expanduser is kept symbolic. -/
def DEAD_LETTER_DIRECTORY : Str := String.toList "~/.tasks/queue"

/-- Outcome of the live `requests.post` in journal.main / update.main:
without a `timeout` argument the call either raises a
ConnectionError-class exception (DNS failure, connection refused,
connect timeout) or returns a completed response with a status code. -/
inductive PostOutcome
  | connectionError
  | response (status : Nat)
deriving DecidableEq

/-- `r.ok`. -/
def responseOk (status : Nat) : Bool := status < 400

/-- `f"Your update was saved at {name}."`. -/
def savedAtMessage (name : Str) : Str :=
  String.toList "Your update was saved at " ++ name ++ String.toList "."

/-- What the submission phase leaves behind: the filesystem, the queued
filename if any, the process exit code, and the printed lines this
model tracks. -/
structure SubmitResult where
  fs : FS
  queuedName : Option Str
  exitCode : Nat
  messages : List Str
deriving DecidableEq

/-- The submission phase of update.main (journal.main lines 277-310
have the same shape): on ConnectionError the payload is queued via the
local queue_dead_letter, the filename message is printed and the
process exits 2; a completed response -- ok or not -- is only printed,
nothing is queued, and the process finishes normally (exit code 0). -/
def updateSubmitPhase (fs : FS) (cwd tsName : Str) (payload : List (Str × Str))
    (url : Str) (o : PostOutcome) : SubmitResult :=
  match o with
  | PostOutcome.connectionError =>
    match journal_queue_dead_letter fs cwd DEAD_LETTER_DIRECTORY tsName payload
        [(String.toList "url", url)] with
    | (fs2, name) =>
      { fs := fs2, queuedName := some name, exitCode := 2,
        messages := [String.toList "Error: Connection failed.", savedAtMessage name,
          String.toList "It will be sent next time you run this program."] }
  | PostOutcome.response st =>
    { fs := fs, queuedName := none, exitCode := 0,
      messages :=
        if responseOk st then [String.toList "(response and link printed)"]
        else [String.toList "(error body printed)",
          String.toList "(temp file path printed)"] }

/-- `utils.get_cursor_position(template, search_string)`: the number of
newlines before the first occurrence of the search string -- 0 when it
is absent -- plus 3. -/
def get_cursor_position (template search_string : Str) : Nat :=
  match findSub search_string template with
  | some i => countNl (template.take i) + 3
  | none => 0 + 3

/-- Modelled from the spec (the reading asserted by C9, for comparison
with the code): the 1-based line number of the first occurrence of the
anchor plus a fixed offset of 3, and 3 when the anchor does not occur. -/
def specCursorPosition (template search_string : Str) : Nat :=
  match findSub search_string template with
  | some i => (countNl (template.take i) + 1) + 3
  | none => 3

/-- The key list of a payload dict. -/
def dictKeys (d : ObsDict) : List Str := d.map Prod.fst

/-- Removing one list of names from another, element by element
(used to state which queue entries a flush pass has deleted). -/
def listDiff (l : List Str) : List Str → List Str
  | [] => l
  | a :: t => listDiff (l.filter (fun m => !(m = a))) t



-- basic lemmas about the string model

theorem chopNl_concat (v : Str) : chopNl (v ++ ['\n']) = v := by
  induction v with
  | nil => rfl
  | cons c cs ih =>
    cases cs with
    | nil => simp [chopNl]
    | cons d ds => simpa [chopNl] using ih

theorem splitLines_nl (cs : Str) : splitLines ('\n' :: cs) = ['\n'] :: splitLines cs := by
  simp [splitLines]

theorem splitLines_cons_ne (c : Char) (cs : Str) (hc : c ≠ '\n') :
    splitLines (c :: cs) =
      match splitLines cs with
      | [] => [[c]]
      | l :: ls => (c :: l) :: ls := by
  simp [splitLines, hc]

theorem splitLines_line (v rest : Str) (hv : '\n' ∉ v) :
    splitLines (v ++ '\n' :: rest) = (v ++ ['\n']) :: splitLines rest := by
  induction v with
  | nil => simp [splitLines]
  | cons c cs ih =>
    have hc : c ≠ '\n' := by intro h; exact hv (h ▸ List.mem_cons_self c cs)
    have hcs : '\n' ∉ cs := fun h => hv (List.mem_cons_of_mem _ h)
    rw [List.cons_append, splitLines_cons_ne c _ hc, ih hcs]
    rfl

theorem splitLines_last (v : Str) (hv : '\n' ∉ v) (hne : v ≠ []) :
    splitLines v = [v] := by
  induction v with
  | nil => exact absurd rfl hne
  | cons c cs ih =>
    have hc : c ≠ '\n' := by intro h; exact hv (h ▸ List.mem_cons_self c cs)
    have hcs : '\n' ∉ cs := fun h => hv (List.mem_cons_of_mem _ h)
    cases cs with
    | nil => simp [splitLines, hc]
    | cons d ds =>
      rw [splitLines_cons_ne c _ hc, ih hcs (by simp)]

theorem univNewlines_eq_self (s : Str) (h : '\r' ∉ s) : univNewlines s = s := by
  induction s with
  | nil => rfl
  | cons c cs ih =>
    have hc : c ≠ '\r' := by intro hh; exact h (hh ▸ List.mem_cons_self c cs)
    have hcs : univNewlines cs = cs := ih (fun hh => h (List.mem_cons_of_mem _ hh))
    rw [univNewlines.eq_def]
    split
    next heq => cases heq
    next heq =>
      injection heq with h1 h2
      exact absurd h1 hc
    next heq =>
      injection heq with h1 h2
      exact absurd h1 hc
    next heq =>
      injection heq with h1 h2
      subst h1
      subst h2
      rw [hcs]

theorem replaceLF_eq_self (s : Str) (h : '\n' ∉ s) : replaceLF s = s := by
  induction s with
  | nil => rfl
  | cons c cs ih =>
    have hc : c ≠ '\n' := by intro hh; exact h (hh ▸ List.mem_cons_self c cs)
    have hcs : '\n' ∉ cs := fun hh => h (List.mem_cons_of_mem _ hh)
    simp [replaceLF, hc, ih hcs]

theorem dropWhile_append_all {p : Char → Bool} (a b : Str) (ha : ∀ c ∈ a, p c) :
    List.dropWhile p (a ++ b) = List.dropWhile p b := by
  induction a with
  | nil => rfl
  | cons c cs ih =>
    have hc : p c := ha c (List.mem_cons_self c cs)
    simp only [List.cons_append, List.dropWhile, hc]
    exact ih (fun d hd => ha d (List.mem_cons_of_mem _ hd))

theorem dropWhile_eq_self_head {p : Char → Bool} (c : Char) (cs : Str) (hc : p c = false) :
    List.dropWhile p (c :: cs) = c :: cs := by
  simp [List.dropWhile, hc]

theorem pyLStrip_length_le (v : Str) : (pyLStrip v).length ≤ v.length :=
  (List.dropWhile_suffix isPySpace).length_le

theorem pyRStrip_length_le (v : Str) : (pyRStrip v).length ≤ v.length := by
  have := (List.dropWhile_suffix (l := v.reverse) isPySpace).length_le
  simpa [pyRStrip] using this

theorem pyLStrip_eq_self_of_strip (v : Str) (hv : pyStrip v = v) :
    pyLStrip v = v := by
  have h1 : (pyRStrip (pyLStrip v)).length ≤ (pyLStrip v).length := pyRStrip_length_le _
  have h2 : (pyLStrip v).length ≤ v.length := pyLStrip_length_le v
  have h3 : (pyStrip v).length = v.length := by rw [hv]
  have h4 : (pyLStrip v).length = v.length := by
    unfold pyStrip at h3; omega
  exact (List.dropWhile_suffix isPySpace).eq_of_length h4

theorem pyRStrip_eq_self_of_strip (v : Str) (hv : pyStrip v = v) :
    pyRStrip v = v := by
  have hl := pyLStrip_eq_self_of_strip v hv
  unfold pyStrip at hv
  rwa [hl] at hv

theorem head_not_space_of_lstrip {c : Char} {cs : Str}
    (h : pyLStrip (c :: cs) = c :: cs) : isPySpace c = false := by
  by_contra hcon
  have hc : isPySpace c = true := by
    cases hx : isPySpace c with
    | true => rfl
    | false => exact absurd hx hcon
  have : pyLStrip (c :: cs) = List.dropWhile isPySpace cs := by
    simp [pyLStrip, List.dropWhile, hc]
  rw [this] at h
  have hle := (List.dropWhile_suffix (l := cs) isPySpace).length_le
  have hlen := congrArg List.length h
  simp only [List.length_cons] at hlen
  omega

/-- Stripping a value padded with whitespace on both sides recovers the
value, provided the value is already stripped. -/
theorem pyStrip_pad (pre v post : Str)
    (hpre : ∀ c ∈ pre, isPySpace c) (hpost : ∀ c ∈ post, isPySpace c)
    (hv : pyStrip v = v) :
    pyStrip (pre ++ v ++ post) = v := by
  cases v with
  | nil =>
    have h1 : pyLStrip (pre ++ post) = [] := by
      unfold pyLStrip
      rw [dropWhile_append_all pre post hpre]
      induction post with
      | nil => rfl
      | cons d ds ih =>
        have hd := hpost d (List.mem_cons_self d ds)
        simp only [List.dropWhile, hd]
        exact ih (fun e he => hpost e (List.mem_cons_of_mem _ he))
    simp only [List.append_nil, List.nil_append] at h1 ⊢
    unfold pyStrip
    rw [h1]
    rfl
  | cons c cs =>
    have hL : pyLStrip (c :: cs) = c :: cs := pyLStrip_eq_self_of_strip _ hv
    have hR : pyRStrip (c :: cs) = c :: cs := pyRStrip_eq_self_of_strip _ hv
    have hc : isPySpace c = false := head_not_space_of_lstrip hL
    have h1 : pyLStrip (pre ++ (c :: cs) ++ post) = (c :: cs) ++ post := by
      unfold pyLStrip
      rw [List.append_assoc, dropWhile_append_all pre _ hpre]
      simp [List.dropWhile, hc]
    unfold pyStrip
    rw [h1]
    -- now the right strip
    unfold pyRStrip
    rw [List.reverse_append, dropWhile_append_all _ _ (by
      intro x hx; exact hpost x (List.mem_reverse.mp hx))]
    have : List.dropWhile isPySpace (c :: cs).reverse = (c :: cs).reverse := by
      have := hR
      unfold pyRStrip at this
      have hlen : (List.dropWhile isPySpace (c :: cs).reverse).length = (c :: cs).reverse.length := by
        have h2 := congrArg List.length this
        simp only [List.length_reverse] at h2 ⊢
        exact h2
      exact (List.dropWhile_suffix isPySpace).eq_of_length hlen
    rw [this, List.reverse_reverse]

-- lexicographic order lemmas (Python string comparison)

theorem pyStrLt_irrefl (a : Str) : pyStrLt a a = false := by
  induction a with
  | nil => rfl
  | cons c cs ih => simp [pyStrLt, ih]

theorem pyStrLt_asymm (a b : Str) (h : pyStrLt a b = true) : pyStrLt b a = false := by
  induction a generalizing b with
  | nil =>
    cases b with
    | nil => simp [pyStrLt] at h
    | cons d ds => rfl
  | cons c cs ih =>
    cases b with
    | nil => simp [pyStrLt] at h
    | cons d ds =>
      simp only [pyStrLt, Bool.or_eq_true, Bool.and_eq_true, decide_eq_true_eq] at h
      rcases h with h | ⟨hEq, hlt⟩
      · have h1 : ¬ d < c := not_lt_of_gt h
        have h2 : d ≠ c := fun hh => absurd (hh ▸ h) (lt_irrefl _)
        simp [pyStrLt, h1, h2]
      · subst hEq
        simp [pyStrLt, ih ds hlt, lt_irrefl]

theorem pyStrLt_connex (a b : Str) (h1 : pyStrLt a b = false) (h2 : pyStrLt b a = false) :
    a = b := by
  induction a generalizing b with
  | nil =>
    cases b with
    | nil => rfl
    | cons d ds => simp [pyStrLt] at h1
  | cons c cs ih =>
    cases b with
    | nil => simp [pyStrLt] at h2
    | cons d ds =>
      simp only [pyStrLt, Bool.or_eq_false_iff, Bool.and_eq_false_iff,
        decide_eq_false_iff_not] at h1 h2
      rcases h1 with ⟨hcd, h1r⟩
      rcases h2 with ⟨hdc, h2r⟩
      have hEq : c = d := le_antisymm (not_lt.mp hdc) (not_lt.mp hcd)
      subst hEq
      rcases h1r with h | h1r
      · exact absurd rfl h
      rcases h2r with h | h2r
      · exact absurd rfl h
      rw [ih ds h1r h2r]

theorem pyStrLt_trans (a b c : Str) (h1 : pyStrLt a b = true) (h2 : pyStrLt b c = true) :
    pyStrLt a c = true := by
  induction a generalizing b c with
  | nil =>
    cases c with
    | nil =>
      cases b with
      | nil => exact h1
      | cons d ds => simp [pyStrLt] at h2
    | cons e es => rfl
  | cons x xs ih =>
    cases b with
    | nil => simp [pyStrLt] at h1
    | cons y ys =>
      cases c with
      | nil => simp [pyStrLt] at h2
      | cons z zs =>
        simp only [pyStrLt, Bool.or_eq_true, Bool.and_eq_true, decide_eq_true_eq] at h1 h2 ⊢
        rcases h1 with h1 | ⟨h1e, h1r⟩
        · rcases h2 with h2 | ⟨h2e, h2r⟩
          · exact Or.inl (lt_trans h1 h2)
          · exact Or.inl (h2e ▸ h1)
        · subst h1e
          rcases h2 with h2 | ⟨h2e, h2r⟩
          · exact Or.inl h2
          · exact Or.inr ⟨h2e, ih ys zs h1r h2r⟩

theorem pyStrLe_total (a b : Str) : pyStrLe a b = true ∨ pyStrLe b a = true := by
  unfold pyStrLe
  cases hab : pyStrLt a b with
  | true => exact Or.inl (by simp)
  | false =>
    cases hba : pyStrLt b a with
    | true => exact Or.inr (by simp)
    | false => exact Or.inl (by simp [pyStrLt_connex a b hab hba])

theorem pyStrLe_of_not_le (a b : Str) (h : pyStrLe a b = false) : pyStrLe b a = true := by
  rcases pyStrLe_total a b with h1 | h1
  · rw [h1] at h; cases h
  · exact h1

theorem pyStrLe_trans (a b c : Str) (h1 : pyStrLe a b = true) (h2 : pyStrLe b c = true) :
    pyStrLe a c = true := by
  unfold pyStrLe at h1 h2 ⊢
  simp only [Bool.or_eq_true, decide_eq_true_eq] at h1 h2 ⊢
  rcases h1 with h1 | h1
  · rcases h2 with h2 | h2
    · exact Or.inl (pyStrLt_trans a b c h1 h2)
    · exact Or.inl (h2 ▸ h1)
  · subst h1
    exact h2

theorem pyStrLt_append (t1 t2 r1 r2 : Str) (hlen : t1.length = t2.length)
    (h : pyStrLt t1 t2 = true) : pyStrLt (t1 ++ r1) (t2 ++ r2) = true := by
  induction t1 generalizing t2 with
  | nil =>
    cases t2 with
    | nil => simp [pyStrLt_irrefl] at h
    | cons d ds => simp at hlen
  | cons c cs ih =>
    cases t2 with
    | nil => simp at hlen
    | cons d ds =>
      simp only [List.length_cons, Nat.add_right_cancel_iff] at hlen
      simp only [pyStrLt, Bool.or_eq_true, Bool.and_eq_true, decide_eq_true_eq] at h ⊢
      rcases h with h | ⟨hEq, hr⟩
      · exact Or.inl h
      · exact Or.inr ⟨hEq, ih ds hlen hr⟩

-- pySorted: permutation and sortedness

theorem pyInsert_perm (x : Str) (l : List Str) : (pyInsert x l).Perm (x :: l) := by
  induction l with
  | nil => exact List.Perm.refl _
  | cons y ys ih =>
    unfold pyInsert
    by_cases h : pyStrLe x y = true
    · rw [if_pos h]
    · rw [if_neg h]
      exact (List.Perm.cons y ih).trans (List.Perm.swap x y ys)

theorem pySorted_perm (l : List Str) : (pySorted l).Perm l := by
  induction l with
  | nil => exact List.Perm.refl _
  | cons x xs ih =>
    exact (pyInsert_perm x (pySorted xs)).trans (List.Perm.cons x ih)

theorem pyInsert_pairwise (x : Str) (l : List Str)
    (h : List.Pairwise (fun a b => pyStrLe a b = true) l) :
    List.Pairwise (fun a b => pyStrLe a b = true) (pyInsert x l) := by
  induction l with
  | nil => simp [pyInsert]
  | cons y ys ih =>
    rcases List.pairwise_cons.mp h with ⟨hy, hys⟩
    unfold pyInsert
    by_cases hle : pyStrLe x y = true
    · rw [if_pos hle]
      refine List.pairwise_cons.mpr ⟨?_, h⟩
      intro z hz
      rcases List.mem_cons.mp hz with rfl | hz
      · exact hle
      · exact pyStrLe_trans x y z hle (hy z hz)
    · rw [if_neg hle]
      refine List.pairwise_cons.mpr ⟨?_, ih hys⟩
      intro z hz
      have hz2 : z ∈ x :: ys := (pyInsert_perm x ys).mem_iff.mp hz
      rcases List.mem_cons.mp hz2 with hzx | hz2
      · rw [hzx]
        refine pyStrLe_of_not_le x y ?_
        revert hle
        cases pyStrLe x y <;> simp
      · exact hy z hz2

theorem pySorted_pairwise (l : List Str) :
    List.Pairwise (fun a b => pyStrLe a b = true) (pySorted l) := by
  induction l with
  | nil => exact List.Pairwise.nil
  | cons x xs ih => exact pyInsert_pairwise x (pySorted xs) ih

/-- The position of the first occurrence of a name in a listing
(`list.index` in Python terms). -/
def idxIn (a : Str) : List Str → Nat
  | [] => 0
  | x :: xs => if x = a then 0 else idxIn a xs + 1

theorem idxIn_lt_length (a : Str) (l : List Str) (h : a ∈ l) :
    idxIn a l < l.length := by
  induction l with
  | nil => cases h
  | cons x xs ih =>
    by_cases hx : x = a
    · simp [idxIn, hx]
    · rcases List.mem_cons.mp h with h1 | h1
      · exact absurd h1.symm hx
      · simpa [idxIn, hx] using ih h1

theorem get_idxIn (a : Str) (l : List Str) (h : a ∈ l)
    (hlt : idxIn a l < l.length) : l.get ⟨idxIn a l, hlt⟩ = a := by
  induction l with
  | nil => cases h
  | cons x xs ih =>
    by_cases hx : x = a
    · simp [idxIn, hx]
    · rcases List.mem_cons.mp h with h1 | h1
      · exact absurd h1.symm hx
      · have hl : idxIn a (x :: xs) = idxIn a xs + 1 := by simp [idxIn, hx]
        have hlt2 : idxIn a xs < xs.length := idxIn_lt_length a xs h1
        have := ih h1 hlt2
        simp only [List.get_eq_getElem] at this ⊢
        rw [List.getElem_cons]
        split
        next h0 => exact absurd (hl ▸ h0) (by simp)
        next h0 =>
          have : (x :: xs)[idxIn a (x :: xs)]? = xs[idxIn a xs]? := by
            rw [hl]
            simp
          simp only [hl]
          simpa using ih h1 hlt2

/-- In the sorted listing, a strictly smaller name sits at a strictly
earlier position. -/
theorem pySorted_idxIn_lt (l : List Str) (a b : Str) (ha : a ∈ l) (hb : b ∈ l)
    (hab : pyStrLt a b = true) :
    idxIn a (pySorted l) < idxIn b (pySorted l) := by
  have hneq : a ≠ b := by
    intro h
    rw [h] at hab
    rw [pyStrLt_irrefl] at hab
    cases hab
  have haS : a ∈ pySorted l := (pySorted_perm l).mem_iff.mpr ha
  have hbS : b ∈ pySorted l := (pySorted_perm l).mem_iff.mpr hb
  have hia : idxIn a (pySorted l) < (pySorted l).length := idxIn_lt_length a _ haS
  have hib : idxIn b (pySorted l) < (pySorted l).length := idxIn_lt_length b _ hbS
  have hgeta : (pySorted l).get ⟨idxIn a (pySorted l), hia⟩ = a := get_idxIn a _ haS hia
  have hgetb : (pySorted l).get ⟨idxIn b (pySorted l), hib⟩ = b := get_idxIn b _ hbS hib
  by_contra hcon
  push_neg at hcon
  rcases Nat.lt_or_ge (idxIn b (pySorted l)) (idxIn a (pySorted l)) with hlt | hge
  · have hpair := (List.pairwise_iff_get.mp (pySorted_pairwise l))
      ⟨idxIn b (pySorted l), hib⟩ ⟨idxIn a (pySorted l), hia⟩ hlt
    rw [hgeta, hgetb] at hpair
    unfold pyStrLe at hpair
    simp only [Bool.or_eq_true, decide_eq_true_eq] at hpair
    rcases hpair with hpair | hpair
    · rw [pyStrLt_asymm a b hab] at hpair
      cases hpair
    · exact hneq hpair.symm
  · have hEq : idxIn a (pySorted l) = idxIn b (pySorted l) := le_antisymm hge hcon
    have : a = b := by
      rw [← hgeta, ← hgetb]
      exact congrArg _ (Fin.ext hEq)
    exact hneq this

-- flush lemmas

theorem filter_ne_of_not_mem (l : List Str) (a : Str) (h : a ∉ l) :
    l.filter (fun m => !(m = a)) = l := by
  induction l with
  | nil => rfl
  | cons x xs ih =>
    have hx : x ≠ a := fun hh => h (hh ▸ List.mem_cons_self x xs)
    have hxs : a ∉ xs := fun hh => h (List.mem_cons_of_mem _ hh)
    simp [List.filter, hx, ih hxs]

theorem listDiff_self_append (t d : List Str) (h : (t ++ d).Nodup) :
    listDiff (t ++ d) t = d := by
  induction t with
  | nil => rfl
  | cons a t ih =>
    have ha : a ∉ t ++ d := (List.nodup_cons.mp h).1
    have h2 : (t ++ d).Nodup := (List.nodup_cons.mp h).2
    show listDiff ((a :: (t ++ d)).filter (fun m => !(m = a))) t = d
    have : (a :: (t ++ d)).filter (fun m => !(m = a)) = t ++ d := by
      simp [List.filter, filter_ne_of_not_mem _ _ ha]
    rw [this]
    exact ih h2

theorem listDiff_perm_left (l1 l2 t : List Str) (h : l1.Perm l2) :
    (listDiff l1 t).Perm (listDiff l2 t) := by
  induction t generalizing l1 l2 with
  | nil => exact h
  | cons a t ih =>
    show (listDiff (l1.filter (fun m => !(m = a))) t).Perm
      (listDiff (l2.filter (fun m => !(m = a))) t)
    exact ih _ _ (h.filter _)

theorem removeEntry_map_fst (q : Queue) (n : Str) :
    (removeEntry q n).map Prod.fst = (q.map Prod.fst).filter (fun m => !(m = n)) := by
  induction q with
  | nil => rfl
  | cons e rest ih =>
    by_cases he : e.1 = n
    · simp [removeEntry, List.filter, he] at ih ⊢
      exact ih
    · simp [removeEntry, List.filter, he] at ih ⊢
      exact ih

theorem sendList_posted (out : Str → SendOutcome) (q : Queue) (l : List Str) :
    (sendList out q l).2.1 = l.takeWhile (fun n => isCompletes (out n)) := by
  induction l generalizing q with
  | nil => rfl
  | cons n rest ih =>
    cases hout : out n with
    | raises => simp [sendList, hout, isCompletes]
    | completes st => simp [sendList, hout, isCompletes, ih (removeEntry q n)]

theorem sendList_remaining (out : Str → SendOutcome) (l : List Str) (q : Queue) :
    ((sendList out q l).1).map Prod.fst =
      listDiff (q.map Prod.fst) (l.takeWhile (fun n => isCompletes (out n))) := by
  induction l generalizing q with
  | nil => rfl
  | cons n rest ih =>
    cases hout : out n with
    | raises => simp [sendList, hout, isCompletes, listDiff]
    | completes st =>
      have hih := ih (removeEntry q n)
      rw [removeEntry_map_fst] at hih
      simp [sendList, hout, isCompletes, listDiff, hih]

-- support lemmas for the claim theorems

theorem takeWhile_all {p : Str → Bool} (l : List Str) (h : ∀ a ∈ l, p a = true) :
    l.takeWhile p = l := by
  induction l with
  | nil => rfl
  | cons x xs ih =>
    have h1 : p x = true := h x (List.mem_cons_self x xs)
    simp [List.takeWhile_cons, h1, ih (fun a ha => h a (List.mem_cons_of_mem _ ha))]

theorem setFile_mem (files : List (Str × DeadLetterFile)) (p : Str) (c : DeadLetterFile) :
    p ∈ (setFile files p c).map Prod.fst := by
  induction files with
  | nil =>
    simp only [setFile, List.map_cons, List.map_nil]
    exact List.mem_cons_self p []
  | cons e rest ih =>
    by_cases he : e.1 = p
    · simp only [setFile, if_pos he, List.map_cons]
      exact List.mem_cons_self p _
    · simp only [setFile, if_neg he, List.map_cons, List.mem_cons]
      exact Or.inr ih

/-- C3: for every queued entry processed by flush, the entry's file is
deleted exactly when its POST call completes without raising, regardless
of the HTTP response status: the names POSTed are the longest completing
prefix of the lexicographically sorted listing, exactly the other names
remain queued, and when every POST completes the queue directory ends
with zero files. -/
theorem flush_deletes_iff_post_completed (q : Queue) (out : Str → SendOutcome)
    (hq : (q.map Prod.fst).Nodup) :
    ((send_dead_letters q out).2.1 =
      (pySorted (q.map Prod.fst)).takeWhile (fun n => isCompletes (out n))) ∧
    (((send_dead_letters q out).1.map Prod.fst).Perm
      ((pySorted (q.map Prod.fst)).dropWhile (fun n => isCompletes (out n)))) ∧
    ((∀ e ∈ q, isCompletes (out e.1) = true) → (send_dead_letters q out).1 = []) := by
  have hposted := sendList_posted out q (pySorted (q.map Prod.fst))
  have hrem := sendList_remaining out (pySorted (q.map Prod.fst)) q
  have hperm : (q.map Prod.fst).Perm (pySorted (q.map Prod.fst)) :=
    (pySorted_perm (q.map Prod.fst)).symm
  have hndS : (pySorted (q.map Prod.fst)).Nodup := hperm.nodup hq
  refine ⟨hposted, ?_, ?_⟩
  · rw [send_dead_letters, hrem]
    refine (listDiff_perm_left _ _ _ hperm).trans ?_
    have hsplit := List.takeWhile_append_dropWhile
      (p := fun n => isCompletes (out n)) (l := pySorted (q.map Prod.fst))
    have hnd2 : (((pySorted (q.map Prod.fst)).takeWhile (fun n => isCompletes (out n))) ++
        ((pySorted (q.map Prod.fst)).dropWhile (fun n => isCompletes (out n)))).Nodup := by
      rw [hsplit]; exact hndS
    nth_rewrite 1 [← hsplit]
    rw [listDiff_self_append _ _ hnd2]
  · intro hall
    have hsorted_all : ∀ n ∈ pySorted (q.map Prod.fst), isCompletes (out n) = true := by
      intro n hn
      have hn2 : n ∈ q.map Prod.fst := (pySorted_perm (q.map Prod.fst)).mem_iff.mp hn
      rcases List.mem_map.mp hn2 with ⟨e, he, hfe⟩
      rw [← hfe]
      exact hall e he
    have htake := takeWhile_all (p := fun n => isCompletes (out n)) _ hsorted_all
    have hmap : ((send_dead_letters q out).1.map Prod.fst) =
        listDiff (q.map Prod.fst) (pySorted (q.map Prod.fst)) := by
      rw [send_dead_letters, hrem, htake]
    have h1 := listDiff_perm_left _ _ (pySorted (q.map Prod.fst)) hperm
    rw [← hmap] at h1
    have h2 : listDiff (pySorted (q.map Prod.fst)) (pySorted (q.map Prod.fst)) = [] := by
      have := listDiff_self_append (pySorted (q.map Prod.fst)) [] (by simpa using hndS)
      simpa using this
    rw [h2] at h1
    exact List.map_eq_nil_iff.mp (List.perm_nil.mp h1)

/-- Witness for C3 at a concrete one-entry queue whose POST completes
with a 500 status: the queue ends empty. -/
theorem flush_deletes_iff_post_completed_witness :
    (([(String.toList "2025-06-01_120000_journal.json",
        ({ payload := [], meta := [] } : DeadLetterFile))].map Prod.fst).Nodup) ∧
    (send_dead_letters
      [(String.toList "2025-06-01_120000_journal.json",
        ({ payload := [], meta := [] } : DeadLetterFile))]
      (fun _ => SendOutcome.completes 500)).1 = [] := by
  refine ⟨by decide, ?_⟩
  exact (flush_deletes_iff_post_completed _ _ (by decide)).2.2 (fun e _ => rfl)

/-- C1: a new submission payload is enqueued to the dead-letter queue if
and only if the live POST raises a ConnectionError-class exception (DNS
failure, connection refused, connect timeout); a completed HTTP response
with any status -- 4xx/5xx included -- never enqueues, leaves the
filesystem untouched and the process finishes normally; and whenever the
payload is queued a message carrying the queue filename is printed, the
file appears under the queue directory, and the exit code is 2. -/
theorem submit_queues_iff_connectivity_error (fs : FS) (cwd tsName : Str)
    (payload : List (Str × Str)) (url : Str) (o : PostOutcome) :
    ((updateSubmitPhase fs cwd tsName payload url o).queuedName.isSome = true ↔
      o = PostOutcome.connectionError) ∧
    (∀ st, o = PostOutcome.response st →
      (updateSubmitPhase fs cwd tsName payload url o).queuedName = none ∧
      (updateSubmitPhase fs cwd tsName payload url o).fs = fs ∧
      (updateSubmitPhase fs cwd tsName payload url o).exitCode = 0) ∧
    (o = PostOutcome.connectionError →
      ∃ n, (updateSubmitPhase fs cwd tsName payload url o).queuedName = some n ∧
        savedAtMessage n ∈ (updateSubmitPhase fs cwd tsName payload url o).messages ∧
        (updateSubmitPhase fs cwd tsName payload url o).exitCode = 2 ∧
        joinPath DEAD_LETTER_DIRECTORY n ∈
          ((updateSubmitPhase fs cwd tsName payload url o).fs.files.map Prod.fst)) := by
  cases o with
  | response st =>
    refine ⟨?_, ?_, ?_⟩
    · simp [updateSubmitPhase]
    · intro st2 _
      exact ⟨rfl, rfl, rfl⟩
    · intro h
      cases h
  | connectionError =>
    refine ⟨?_, ?_, ?_⟩
    · simp [updateSubmitPhase, journal_queue_dead_letter]
    · intro st h
      cases h
    · intro _
      refine ⟨(journal_queue_dead_letter fs cwd DEAD_LETTER_DIRECTORY tsName payload
        [(String.toList "url", url)]).2, ?_, ?_, ?_, ?_⟩
      · simp [updateSubmitPhase]
      · simp [updateSubmitPhase]
      · simp [updateSubmitPhase]
      · simp only [updateSubmitPhase]
        unfold journal_queue_dead_letter
        exact setFile_mem _ _ _

/-- Witness for C1: a connection failure on an empty filesystem queues
the payload under the expected name and exits 2. -/
theorem submit_queues_iff_connectivity_error_witness :
    ∃ n, (updateSubmitPhase { dirs := [], files := [] } []
        (String.toList "2025-06-01_120000_update") [] (String.toList "http://x/updates/")
        PostOutcome.connectionError).queuedName = some n ∧
      savedAtMessage n ∈ (updateSubmitPhase { dirs := [], files := [] } []
        (String.toList "2025-06-01_120000_update") [] (String.toList "http://x/updates/")
        PostOutcome.connectionError).messages ∧
      (updateSubmitPhase { dirs := [], files := [] } []
        (String.toList "2025-06-01_120000_update") [] (String.toList "http://x/updates/")
        PostOutcome.connectionError).exitCode = 2 ∧
      joinPath DEAD_LETTER_DIRECTORY n ∈
        ((updateSubmitPhase { dirs := [], files := [] } []
          (String.toList "2025-06-01_120000_update") [] (String.toList "http://x/updates/")
          PostOutcome.connectionError).fs.files.map Prod.fst) :=
  (submit_queues_iff_connectivity_error _ _ _ _ _ _).2.2 rfl

/-- C7: journal.py's local queue_dead_letter in a same-second double
enqueue.  The collision loop checks the bare filename against the
current working directory, never sees the freshly written queue file,
reuses the very same name and overwrites it: after two calls the queue
directory holds one file, not two.  (The shared utils.queue_dead_letter,
third and fourth conjuncts, does append the `-1` suffix when the queue
directory exists.) -/
theorem journal_enqueue_same_second_overwrites :
    ((journal_queue_dead_letter
        (FS.mk [String.toList "~", String.toList "~/.tasks"] []) (String.toList "/work")
        DEAD_LETTER_DIRECTORY (String.toList "2025-06-01_120000_journal")
        [] []).2 = String.toList "2025-06-01_120000_journal.json") ∧
    ((journal_queue_dead_letter
        (journal_queue_dead_letter
          (FS.mk [String.toList "~", String.toList "~/.tasks"] []) (String.toList "/work")
          DEAD_LETTER_DIRECTORY (String.toList "2025-06-01_120000_journal") [] []).1
        (String.toList "/work") DEAD_LETTER_DIRECTORY
        (String.toList "2025-06-01_120000_journal") [] []).2 =
      String.toList "2025-06-01_120000_journal.json") ∧
    ((journal_queue_dead_letter
        (journal_queue_dead_letter
          (FS.mk [String.toList "~", String.toList "~/.tasks"] []) (String.toList "/work")
          DEAD_LETTER_DIRECTORY (String.toList "2025-06-01_120000_journal") [] []).1
        (String.toList "/work") DEAD_LETTER_DIRECTORY
        (String.toList "2025-06-01_120000_journal") [] []).1.files.length = 1) ∧
    (queue_dead_letter
        (FS.mk [String.toList "~", String.toList "~/.tasks", String.toList "~/.tasks/queue"] [])
        DEAD_LETTER_DIRECTORY (String.toList "2025-06-01_120000_journal") [] [] =
      Except.ok
        (FS.mk [String.toList "~", String.toList "~/.tasks", String.toList "~/.tasks/queue"]
          [(joinPath DEAD_LETTER_DIRECTORY (String.toList "2025-06-01_120000_journal.json"),
            DeadLetterFile.mk [] [])],
         String.toList "2025-06-01_120000_journal.json")) ∧
    ((queue_dead_letter
        (FS.mk [String.toList "~", String.toList "~/.tasks", String.toList "~/.tasks/queue"]
          [(joinPath DEAD_LETTER_DIRECTORY (String.toList "2025-06-01_120000_journal.json"),
            DeadLetterFile.mk [] [])])
        DEAD_LETTER_DIRECTORY (String.toList "2025-06-01_120000_journal") [] []).toOption.map
        Prod.snd = some (String.toList "2025-06-01_120000_journal-1.json")) := by
  decide

/-- C8: utils.queue_dead_letter on a fresh system where the queue
directory is absent: `ensure_directory_exists('~/.tasks/queue')` creates
only the parent `~/.tasks`, the queue directory itself is never created,
and the write raises FileNotFoundError instead of enqueueing. -/
theorem utils_enqueue_fresh_system_fails :
    (queue_dead_letter (FS.mk [String.toList "~"] []) DEAD_LETTER_DIRECTORY
      (String.toList "2025-06-01_120000_item") [] [] =
        Except.error PyErr.fileNotFound) ∧
    ((ensure_directory_exists (FS.mk [String.toList "~"] []) DEAD_LETTER_DIRECTORY).dirs =
      [String.toList "~/.tasks", String.toList "~"]) ∧
    (DEAD_LETTER_DIRECTORY ∉
      (ensure_directory_exists (FS.mk [String.toList "~"] []) DEAD_LETTER_DIRECTORY).dirs) := by
  decide

/-- C9 counterexample: for the anchor `"b"` in `"a\nb"` (first
occurrence on line 2) the code returns 4, while the claimed
1-based-line-plus-3 reading gives 5. -/
theorem cursor_position_counterexample :
    get_cursor_position (String.toList "a\nb") (String.toList "b") = 4 ∧
    specCursorPosition (String.toList "a\nb") (String.toList "b") = 5 ∧
    get_cursor_position (String.toList "a\nb") (String.toList "b") ≠
      specCursorPosition (String.toList "a\nb") (String.toList "b") := by
  decide

/-- C9 amended: when the anchor occurs, get_cursor_position returns the
1-based line number of its first occurrence plus 2 (the newline count
before it plus 3); when it does not occur, it returns 3. -/
theorem cursor_position_line_plus_two (template search_string : Str) :
    (∀ i, findSub search_string template = some i →
      get_cursor_position template search_string =
        (countNl (template.take i) + 1) + 2) ∧
    (findSub search_string template = none →
      get_cursor_position template search_string = 3) := by
  constructor
  · intro i hi
    simp [get_cursor_position, hi]
  · intro hi
    simp [get_cursor_position, hi]

/-- Witness for the amended C9 at the counterexample input. -/
theorem cursor_position_line_plus_two_witness :
    findSub (String.toList "b") (String.toList "a\nb") = some 2 ∧
    get_cursor_position (String.toList "a\nb") (String.toList "b") =
      (countNl ((String.toList "a\nb").take 2) + 1) + 2 :=
  ⟨by decide, (cursor_position_line_plus_two _ _).1 2 (by decide)⟩

/-- C2 counterexample: two same-second enqueues are named
`..._journal.json` (first) and `..._journal-1.json` (second); `'-'`
sorts before `'.'`, so a flush in which every POST completes performs
the second enqueue's POST first, not the first's. -/
theorem flush_order_counterexample :
    (send_dead_letters
      [(String.toList "2025-06-01_120000_journal.json", DeadLetterFile.mk [] []),
       (String.toList "2025-06-01_120000_journal-1.json", DeadLetterFile.mk [] [])]
      (fun _ => SendOutcome.completes 200)).2.1 =
      [String.toList "2025-06-01_120000_journal-1.json",
       String.toList "2025-06-01_120000_journal.json"] ∧
    String.toList "2025-06-01_120000_journal-1.json" ≠
      String.toList "2025-06-01_120000_journal.json" := by
  decide

/-- C2 amended: flush performs its POSTs in lexicographically sorted
filename order; when every POST completes and A's filename carries a
strictly smaller equal-length timestamp prefix than B's (enqueues in
distinct seconds), A's POST is performed strictly before B's.
Same-second enqueues are the exception: the collision suffix makes the
second name sort first (see the counterexample). -/
theorem flush_oldest_timestamp_first (q : Queue) (out : Str → SendOutcome)
    (tA tB rA rB : Str)
    (hA : (tA ++ rA) ∈ q.map Prod.fst) (hB : (tB ++ rB) ∈ q.map Prod.fst)
    (hlen : tA.length = tB.length) (hlt : pyStrLt tA tB = true)
    (hall : ∀ n, isCompletes (out n) = true) :
    (send_dead_letters q out).2.1 = pySorted (q.map Prod.fst) ∧
    idxIn (tA ++ rA) ((send_dead_letters q out).2.1) <
      idxIn (tB ++ rB) ((send_dead_letters q out).2.1) := by
  have hposted : (send_dead_letters q out).2.1 = pySorted (q.map Prod.fst) := by
    rw [send_dead_letters, sendList_posted]
    exact takeWhile_all _ (fun a _ => hall a)
  refine ⟨hposted, ?_⟩
  rw [hposted]
  exact pySorted_idxIn_lt _ _ _ hA hB (pyStrLt_append tA tB rA rB hlen hlt)

/-- Witness for the amended C2: with entries from two distinct seconds,
the older one is POSTed first. -/
theorem flush_oldest_timestamp_first_witness :
    ((String.toList "2025-06-01_090000" ++ String.toList "_journal.json") ∈
      ([(String.toList "2025-06-02_090000_journal.json", DeadLetterFile.mk [] []),
        (String.toList "2025-06-01_090000_journal.json", DeadLetterFile.mk [] [])].map
          Prod.fst)) ∧
    pyStrLt (String.toList "2025-06-01_090000") (String.toList "2025-06-02_090000") = true ∧
    idxIn (String.toList "2025-06-01_090000" ++ String.toList "_journal.json")
        ((send_dead_letters
          [(String.toList "2025-06-02_090000_journal.json", DeadLetterFile.mk [] []),
           (String.toList "2025-06-01_090000_journal.json", DeadLetterFile.mk [] [])]
          (fun _ => SendOutcome.completes 201)).2.1) <
      idxIn (String.toList "2025-06-02_090000" ++ String.toList "_journal.json")
        ((send_dead_letters
          [(String.toList "2025-06-02_090000_journal.json", DeadLetterFile.mk [] []),
           (String.toList "2025-06-01_090000_journal.json", DeadLetterFile.mk [] [])]
          (fun _ => SendOutcome.completes 201)).2.1) :=
  ⟨by decide, by decide,
    (flush_oldest_timestamp_first
      [(String.toList "2025-06-02_090000_journal.json", DeadLetterFile.mk [] []),
       (String.toList "2025-06-01_090000_journal.json", DeadLetterFile.mk [] [])]
      (fun _ => SendOutcome.completes 201)
      (String.toList "2025-06-01_090000") (String.toList "2025-06-02_090000")
      (String.toList "_journal.json") (String.toList "_journal.json")
      (by decide) (by decide) (by decide) (by decide) (fun _ => rfl)).2⟩

/-- C5 counterexample: observation.py's parser has no
unknown-header branch; after `# Situation` the line `# Foo` and the
following body line are accumulated into the situation text instead of
closing the section and being discarded (which would have left just
`x`). -/
theorem unknown_header_kept_as_body_in_observation :
    dictGet (obsParseDoc (String.toList "# Situation (What happened?)\nx\n# Foo\ny\n"))
      (String.toList "situation") =
      some (some (String.toList "x\r\n# Foo\r\ny")) ∧
    some (some (String.toList "x\r\n# Foo\r\ny")) ≠
      (some (some (String.toList "x")) : Option (Option Str)) := by
  decide

theorem reflect_none_section_no_change (rest : List Str) (payload : ObsDict)
    (stack : List Str) (hRest : ∀ l ∈ rest, reflectTitleMatch l = none) :
    reflectParseLines rest payload none stack = payload := by
  induction rest generalizing stack with
  | nil => rfl
  | cons l rest ih =>
    have hl := hRest l (List.mem_cons_self l rest)
    have hr : ∀ x ∈ rest, reflectTitleMatch x = none :=
      fun x hx => hRest x (List.mem_cons_of_mem _ hx)
    by_cases he : emptyPointMatch l
    · simp only [reflectParseLines, hl, he, if_true]
      exact ih _ hr
    · simp only [reflectParseLines, hl, he, if_false]
      exact ih _ hr

/-- C5 amended: in reflect.py's parser a line that is not a recognized
header but whose stripped text starts with `#`, met while a section is
open, flushes the accumulated lines into the record and closes the
section; as long as no recognized header follows, every remaining line
leaves the record unchanged.  observation.py's parser (and likewise
journal.py's and update.py's) has no such branch: an unrecognized `#`
line is ordinary body text -- see the counterexample. -/
theorem reflect_unknown_header_closes_section (line : Str) (rest : List Str)
    (payload : ObsDict) (n : Str) (stack : List Str)
    (hTitle : reflectTitleMatch line = none)
    (hHash : stripStartsWithHash line = true)
    (hRest : ∀ l ∈ rest, reflectTitleMatch l = none) :
    reflectParseLines (line :: rest) payload (some n) stack =
      reflect_add_stack payload n stack := by
  simp only [reflectParseLines, hTitle, hHash, if_true]
  exact reflect_none_section_no_change rest _ [] hRest

/-- Witness for the amended C5: an open `Reflection` section hit by
`# Unknown` flushes and closes; the following body line is dropped. -/
theorem reflect_unknown_header_closes_section_witness :
    reflectTitleMatch (String.toList "# Unknown\n") = none ∧
    stripStartsWithHash (String.toList "# Unknown\n") = true ∧
    reflectParseLines [String.toList "# Unknown\n", String.toList "dropped\n"]
        reflectInitPayload (some (String.toList "Reflection"))
        [String.toList "good stuff\n"] =
      reflect_add_stack reflectInitPayload (String.toList "Reflection")
        [String.toList "good stuff\n"] :=
  ⟨by decide, by decide,
    reflect_unknown_header_closes_section _ _ _ _ _ (by decide) (by decide)
      (by
        intro l hl
        have hh := List.mem_singleton.mp hl
        rw [hh]
        decide)⟩

theorem dictSet_keys_of_mem (d : ObsDict) (k : Str) (v : Option Str) :
    k ∈ dictKeys d → dictKeys (dictSet d k v) = dictKeys d := by
  induction d with
  | nil => intro h; cases h
  | cons e rest ih =>
    intro h
    by_cases he : e.1 = k
    · simp [dictSet, dictKeys, he]
    · have hk : k ∈ dictKeys rest := by
        rcases List.mem_cons.mp h with h1 | h1
        · exact absurd h1.symm he
        · exact h1
      have h2 := ih hk
      simp only [dictSet, if_neg he, dictKeys, List.map_cons] at h2 ⊢
      rw [h2]

theorem sanitize_fields_keys (d : ObsDict) : dictKeys (sanitize_fields d) = dictKeys d := by
  simp [sanitize_fields, dictKeys, List.map_map, Function.comp]

theorem obsMetaMatch_keys (line g1 g2 : Str) (h : obsMetaMatch line = some (g1, g2)) :
    g1 = String.toList "Date" ∨ g1 = String.toList "Thread" ∨ g1 = String.toList "Type" := by
  unfold obsMetaMatch at h
  split_ifs at h with h1 h2 h3 h4
  · simp only [Option.some.injEq, Prod.mk.injEq] at h
    exact Or.inl h.1.symm
  · simp only [Option.some.injEq, Prod.mk.injEq] at h
    exact Or.inr (Or.inl h.1.symm)
  · simp only [Option.some.injEq, Prod.mk.injEq] at h
    exact Or.inr (Or.inr h.1.symm)

theorem obsTitleMatch_keys (line n : Str) (h : obsTitleMatch line = some n) :
    n = String.toList "Situation" ∨ n = String.toList "Interpretation" ∨
      n = String.toList "Approach" := by
  unfold obsTitleMatch at h
  split_ifs at h
  · exact Or.inl (Option.some.inj h).symm
  · exact Or.inr (Or.inl (Option.some.inj h).symm)
  · exact Or.inr (Or.inr (Option.some.inj h).symm)

theorem obsParseLines_keys (lines : List Str) :
    ∀ (d : ObsDict) (cur : Option Str) (stack : List Str),
    dictKeys d = dictKeys obsInitPayload →
    (cur = none ∨ cur = some (String.toList "Situation") ∨
      cur = some (String.toList "Interpretation") ∨ cur = some (String.toList "Approach")) →
    dictKeys (obsParseLines lines d cur stack) = dictKeys obsInitPayload := by
  have hflush : ∀ (d : ObsDict) (cur : Option Str) (stack : List Str),
      dictKeys d = dictKeys obsInitPayload →
      (cur = none ∨ cur = some (String.toList "Situation") ∨
        cur = some (String.toList "Interpretation") ∨ cur = some (String.toList "Approach")) →
      dictKeys (match cur with
        | some n => add_stack_to_payload d n stack
        | none => d) = dictKeys obsInitPayload := by
    intro d cur stack hd hcur
    rcases hcur with rfl | rfl | rfl | rfl
    · exact hd
    all_goals
      simp only [add_stack_to_payload]
      rw [dictSet_keys_of_mem _ _ _ (by rw [hd]; decide), hd]
  induction lines with
  | nil =>
    intro d cur stack hd hcur
    exact hflush d cur stack hd hcur
  | cons line rest ih =>
    intro d cur stack hd hcur
    rw [obsParseLines.eq_def]
    cases hm : obsMetaMatch line with
    | some g =>
      rcases g with ⟨g1, g2⟩
      simp only [hm]
      refine ih _ cur stack ?_ hcur
      rcases obsMetaMatch_keys line g1 g2 hm with rfl | rfl | rfl
      all_goals
        simp only [add_meta_to_payload]
        rw [dictSet_keys_of_mem _ _ _ (by rw [hd]; decide), hd]
    | none =>
      cases ht : obsTitleMatch line with
      | some name =>
        simp only [hm, ht]
        refine ih _ _ [] (hflush d cur stack hd hcur) ?_
        rcases obsTitleMatch_keys line name ht with rfl | rfl | rfl
        · exact Or.inr (Or.inl (by decide))
        · exact Or.inr (Or.inr (Or.inl (by decide)))
        · exact Or.inr (Or.inr (Or.inr (by decide)))
      | none =>
        simp only [hm, ht]
        exact ih d cur (stack ++ [line]) hd hcur

/-- C10: for every edited document, the observation parser produces a
payload whose key list is exactly
(pub_date, thread, type, situation, interpretation, approach): metadata
lines with other keys and header lines with other titles never add or
remove keys, so an edit cannot inject arbitrary fields into the POSTed
payload. -/
theorem observation_payload_keys_closed (doc : Str) :
    dictKeys (obsParseDoc doc) =
      [String.toList "pub_date", String.toList "thread", String.toList "type",
       String.toList "situation", String.toList "interpretation",
       String.toList "approach"] := by
  unfold obsParseDoc
  rw [sanitize_fields_keys]
  exact obsParseLines_keys _ obsInitPayload none [] rfl (Or.inl rfl)

theorem dropWhile_shape {p : Char → Bool} (l : Str) :
    List.dropWhile p l = [] ∨
      ∃ c cs, List.dropWhile p l = c :: cs ∧ p c = false := by
  induction l with
  | nil => exact Or.inl rfl
  | cons c cs ih =>
    cases hc : p c with
    | true => simpa [List.dropWhile, hc] using ih
    | false => exact Or.inr ⟨c, cs, by simp [List.dropWhile, hc], hc⟩

theorem dropWhile_idem {p : Char → Bool} (l : Str) :
    List.dropWhile p (List.dropWhile p l) = List.dropWhile p l := by
  rcases dropWhile_shape (p := p) l with h | ⟨c, cs, h, hc⟩
  · rw [h]; rfl
  · rw [h]
    exact dropWhile_eq_self_head c cs hc

theorem pyRStrip_idem (s : Str) : pyRStrip (pyRStrip s) = pyRStrip s := by
  unfold pyRStrip
  rw [List.reverse_reverse, dropWhile_idem]

theorem pyRStrip_prefix (s : Str) : pyRStrip s <+: s := by
  unfold pyRStrip
  rcases (List.dropWhile_suffix (l := s.reverse) isPySpace) with ⟨t, ht⟩
  refine ⟨t.reverse, ?_⟩
  rw [← List.reverse_append, ht, List.reverse_reverse]

theorem pyStrip_idem (s : Str) : pyStrip (pyStrip s) = pyStrip s := by
  unfold pyStrip
  have hpre : pyRStrip (pyLStrip s) <+: pyLStrip s := pyRStrip_prefix _
  have hL : pyLStrip (pyRStrip (pyLStrip s)) = pyRStrip (pyLStrip s) := by
    rcases hw : pyRStrip (pyLStrip s) with _ | ⟨c, cs⟩
    · rfl
    · rcases hpre with ⟨t, ht⟩
      rw [hw] at ht
      have hu : pyLStrip s = c :: (cs ++ t) := by
        rw [← ht]; rfl
      have hc : isPySpace c = false := by
        rcases dropWhile_shape (p := isPySpace) s with h | ⟨c2, cs2, h, hc2⟩
        · rw [show pyLStrip s = List.dropWhile isPySpace s from rfl, h] at hu
          cases hu
        · rw [show pyLStrip s = List.dropWhile isPySpace s from rfl, h] at hu
          injection hu with h1 _
          rw [h1] at hc2
          exact hc2
      exact dropWhile_eq_self_head c cs hc
  rw [hL, pyRStrip_idem]

theorem replaceLF_eq_nil_iff (s : Str) : replaceLF s = [] ↔ s = [] := by
  cases s with
  | nil => simp [replaceLF]
  | cons c cs =>
    constructor
    · intro h
      by_cases hc : c = '\n' <;> simp [replaceLF, hc] at h
    · intro h
      cases h

theorem jdictGet_jdictSet_self (d : JDict) (k : Str) (v : JV) :
    jdictGet (jdictSet d k v) k = some v := by
  induction d with
  | nil => simp [jdictSet, jdictGet, List.find?]
  | cons e rest ih =>
    by_cases he : e.1 = k
    · simp [jdictSet, jdictGet, List.find?, he]
    · simp only [jdictSet, if_neg he]
      simp only [jdictGet, List.find?] at ih ⊢
      rw [show (decide (e.1 = k)) = false from decide_eq_false he]
      exact ih

theorem jdictGet_jdictSet_ne (d : JDict) (k k2 : Str) (v : JV) (h : k2 ≠ k) :
    jdictGet (jdictSet d k v) k2 = jdictGet d k2 := by
  induction d with
  | nil =>
    simp only [jdictSet, jdictGet, List.find?]
    rw [show (decide (k = k2)) = false from decide_eq_false (fun hh => h hh.symm)]
  | cons e rest ih =>
    by_cases he : e.1 = k
    · have e1 : decide (k = k2) = false := decide_eq_false (fun hh => h hh.symm)
      have e2 : decide (e.1 = k2) = false := decide_eq_false (fun hh => h (he ▸ hh).symm)
      simp only [jdictSet, if_pos he, jdictGet, List.find?, e1, e2]
    · simp only [jdictSet, if_neg he]
      simp only [jdictGet, List.find?] at ih ⊢
      cases hk2 : decide (e.1 = k2) with
      | true => rfl
      | false => exact ih

theorem journalMetaMatch_keys (line g1 g2 : Str)
    (h : journalMetaMatch line = some (g1, g2)) :
    g1 = String.toList "Thread" ∨ g1 = String.toList "Published" ∨
      g1 = String.toList "Tags" := by
  unfold journalMetaMatch at h
  split_ifs at h
  · simp only [Option.some.injEq, Prod.mk.injEq] at h
    exact Or.inl h.1.symm
  · simp only [Option.some.injEq, Prod.mk.injEq] at h
    exact Or.inr (Or.inl h.1.symm)
  · simp only [Option.some.injEq, Prod.mk.injEq] at h
    exact Or.inr (Or.inr h.1.symm)

theorem journalTitleMatch_eq (line n : Str) (h : journalTitleMatch line = some n) :
    n = String.toList "Comment" := by
  unfold journalTitleMatch at h
  split_ifs at h
  exact (Option.some.inj h).symm

theorem journal_add_meta_comment (d : JDict) (name item : Str)
    (h : pyLower name ≠ String.toList "comment") :
    jdictGet (journal_add_meta d name item) (String.toList "comment") =
      jdictGet d (String.toList "comment") := by
  unfold journal_add_meta
  split_ifs
  · exact jdictGet_jdictSet_ne _ _ _ _ (fun hh => h hh.symm)
  · exact jdictGet_jdictSet_ne _ _ _ _ (fun hh => h hh.symm)

theorem journal_comment_cell (lines : List Str) :
    ∀ (d : JDict) (cur : Option Str) (stack : List Str),
    (jdictGet d (String.toList "comment") = some JV.jnone ∨
      ∃ s, jdictGet d (String.toList "comment") = some (JV.jstr s) ∧ pyStrip s = s) →
    (cur = none ∨ cur = some (String.toList "Comment")) →
    (jdictGet (journalParseLines lines d cur stack) (String.toList "comment") =
        some JV.jnone ∨
      ∃ s, jdictGet (journalParseLines lines d cur stack) (String.toList "comment") =
        some (JV.jstr s) ∧ pyStrip s = s) := by
  have hflushed : ∀ (d : JDict) (n : Str) (stack : List Str),
      n = String.toList "Comment" →
      (jdictGet (journal_add_stack d n stack) (String.toList "comment") = some JV.jnone ∨
        ∃ s, jdictGet (journal_add_stack d n stack) (String.toList "comment") =
          some (JV.jstr s) ∧ pyStrip s = s) := by
    intro d n stack hn
    subst hn
    refine Or.inr ⟨pyStrip (joinAll stack), ?_, pyStrip_idem _⟩
    unfold journal_add_stack
    have : pyLower (String.toList "Comment") = String.toList "comment" := by decide
    rw [this]
    exact jdictGet_jdictSet_self _ _ _
  induction lines with
  | nil =>
    intro d cur stack hd hcur
    rcases hcur with rfl | rfl
    · exact hd
    · exact hflushed d _ stack rfl
  | cons line rest ih =>
    intro d cur stack hd hcur
    rw [journalParseLines.eq_def]
    cases hm : journalMetaMatch line with
    | some g =>
      rcases g with ⟨g1, g2⟩
      simp only [hm]
      refine ih _ cur stack ?_ hcur
      have hkey : pyLower (pyStrip g1) ≠ String.toList "comment" := by
        rcases journalMetaMatch_keys line g1 g2 hm with rfl | rfl | rfl <;> decide
      rw [journal_add_meta_comment _ _ _ hkey]
      exact hd
    | none =>
      cases ht : journalTitleMatch line with
      | some name =>
        simp only [hm, ht]
        have hname := journalTitleMatch_eq line name ht
        refine ih _ _ [] ?_ ?_
        · rcases hcur with rfl | rfl
          · exact hd
          · exact hflushed d _ stack rfl
        · subst hname
          exact Or.inr (by decide)
      | none =>
        simp only [hm, ht]
        exact ih d cur (stack ++ [line]) hd hcur

theorem journal_add_stack_shape (d : JDict) (stack : List Str) (h : journalShape d) :
    journalShape (journal_add_stack d (String.toList "Comment") stack) := by
  rcases h with ⟨c, t, p, rest2, hc, ht, hp, hrest, rfl⟩
  unfold journal_add_stack
  rw [(by decide : pyLower (String.toList "Comment") = String.toList "comment")]
  refine ⟨JV.jstr (pyStrip (joinAll stack)), t, p, rest2, Or.inr ⟨_, rfl⟩, ht, hp,
    hrest, ?_⟩
  simp [jdictSet]

theorem journal_add_meta_shape (d : JDict) (g1 g2 : Str)
    (hg : g1 = String.toList "Thread" ∨ g1 = String.toList "Published" ∨
      g1 = String.toList "Tags")
    (h : journalShape d) :
    journalShape (journal_add_meta d (pyStrip g1) (pyStrip g2)) := by
  rcases h with ⟨c, t, p, rest2, hc, ht, hp, hrest, rfl⟩
  rcases hg with rfl | rfl | rfl
  · rw [(by decide : pyStrip (String.toList "Thread") = String.toList "Thread")]
    unfold journal_add_meta
    rw [(by decide : pyLower (String.toList "Thread") = String.toList "thread")]
    rw [if_neg (by decide : ¬(String.toList "thread" = String.toList "tags"))]
    refine ⟨c, JV.jstr (pyStrip g2), p, rest2, hc, ⟨_, rfl⟩, hp, hrest, ?_⟩
    simp [jdictSet]
  · rw [(by decide : pyStrip (String.toList "Published") = String.toList "Published")]
    unfold journal_add_meta
    rw [(by decide : pyLower (String.toList "Published") = String.toList "published")]
    rw [if_neg (by decide : ¬(String.toList "published" = String.toList "tags"))]
    refine ⟨c, t, JV.jstr (pyStrip g2), rest2, hc, ht, Or.inr ⟨_, rfl⟩, hrest, ?_⟩
    simp [jdictSet]
  · rw [(by decide : pyStrip (String.toList "Tags") = String.toList "Tags")]
    unfold journal_add_meta
    rw [(by decide : pyLower (String.toList "Tags") = String.toList "tags")]
    rw [if_pos rfl]
    rcases hrest with rfl | ⟨l, rfl⟩
    · refine ⟨c, t, p, [(String.toList "tags", JV.jlist (splitComma (pyStrip g2)))],
        hc, ht, hp, Or.inr ⟨_, rfl⟩, ?_⟩
      simp [jdictSet]
    · refine ⟨c, t, p, [(String.toList "tags", JV.jlist (splitComma (pyStrip g2)))],
        hc, ht, hp, Or.inr ⟨_, rfl⟩, ?_⟩
      simp [jdictSet]

theorem journalParseLines_shape (lines : List Str) :
    ∀ (d : JDict) (cur : Option Str) (stack : List Str),
    journalShape d → (cur = none ∨ cur = some (String.toList "Comment")) →
    journalShape (journalParseLines lines d cur stack) := by
  induction lines with
  | nil =>
    intro d cur stack hd hcur
    rcases hcur with rfl | rfl
    · exact hd
    · exact journal_add_stack_shape d stack hd
  | cons line rest ih =>
    intro d cur stack hd hcur
    rw [journalParseLines.eq_def]
    cases hm : journalMetaMatch line with
    | some g =>
      rcases g with ⟨g1, g2⟩
      simp only [hm]
      exact ih _ cur stack
        (journal_add_meta_shape d g1 g2 (journalMetaMatch_keys line g1 g2 hm) hd) hcur
    | none =>
      cases ht2 : journalTitleMatch line with
      | some name =>
        simp only [hm, ht2]
        have hname := journalTitleMatch_eq line name ht2
        subst hname
        refine ih _ _ [] ?_ (Or.inr (by decide))
        rcases hcur with rfl | rfl
        · exact hd
        · exact journal_add_stack_shape d stack hd
      | none =>
        simp only [hm, ht2]
        exact ih d cur (stack ++ [line]) hd hcur

theorem journal_sanitize_cons_ok (k : Str) (v cv : JV) (rest : JDict)
    (hk : ¬(k = String.toList "tags")) (hv : jSanitizeString v = Except.ok cv) :
    journal_sanitize_fields ((k, v) :: rest) =
      (journal_sanitize_fields rest).map (fun r => (k, cv) :: r) := by
  simp only [journal_sanitize_fields, if_neg hk, hv]
  cases journal_sanitize_fields rest <;> rfl

theorem journal_sanitize_cons_err (k : Str) (v : JV) (rest : JDict)
    (hk : ¬(k = String.toList "tags"))
    (hv : jSanitizeString v = Except.error PyErr.attributeError) :
    journal_sanitize_fields ((k, v) :: rest) = Except.error PyErr.attributeError := by
  simp only [journal_sanitize_fields, if_neg hk, hv]

theorem journal_sanitize_tags_ok (l : List Str) (rest : JDict) :
    journal_sanitize_fields ((String.toList "tags", JV.jlist l) :: rest) =
      (journal_sanitize_fields rest).map (fun r =>
        (String.toList "tags",
          JV.jlist ((l.map pyStrip).filter (fun s => !(s = [])))) :: r) := by
  simp only [journal_sanitize_fields, if_pos rfl, jSanitizeList]
  cases journal_sanitize_fields rest <;> rfl

theorem journal_sanitize_shape (c t p : JV) (rest2 : JDict)
    (hc : c = JV.jnone ∨ ∃ s, c = JV.jstr s)
    (ht : ∃ s, t = JV.jstr s)
    (hrest : rest2 = [] ∨ ∃ l, rest2 = [(String.toList "tags", JV.jlist l)]) :
    (p = JV.jdatetime →
      journal_sanitize_fields ((String.toList "comment", c) ::
          (String.toList "thread", t) :: (String.toList "published", p) :: rest2) =
        Except.error PyErr.attributeError) ∧
    (∀ ps, p = JV.jstr ps →
      ∃ cv d2, jSanitizeString c = Except.ok cv ∧
        journal_sanitize_fields ((String.toList "comment", c) ::
            (String.toList "thread", t) :: (String.toList "published", p) :: rest2) =
          Except.ok d2 ∧
        jdictGet d2 (String.toList "comment") = some cv) := by
  obtain ⟨ts, rfl⟩ := ht
  have hcv : ∃ cv, jSanitizeString c = Except.ok cv := by
    rcases hc with rfl | ⟨s, rfl⟩
    · exact ⟨JV.jnone, rfl⟩
    · exact ⟨_, rfl⟩
  obtain ⟨cv, hcveq⟩ := hcv
  have hr2 : ∃ r2, journal_sanitize_fields rest2 = Except.ok r2 := by
    rcases hrest with rfl | ⟨l, rfl⟩
    · exact ⟨[], rfl⟩
    · exact ⟨[(String.toList "tags",
        JV.jlist ((l.map pyStrip).filter (fun s => !(s = []))))],
        by rw [journal_sanitize_tags_ok l []]; rfl⟩
  obtain ⟨r2, hr2eq⟩ := hr2
  constructor
  · rintro rfl
    rw [journal_sanitize_cons_ok (String.toList "comment") c cv _ (by decide) hcveq,
      journal_sanitize_cons_ok (String.toList "thread") (JV.jstr ts) _ _ (by decide) rfl,
      journal_sanitize_cons_err (String.toList "published") JV.jdatetime _ (by decide) rfl]
    rfl
  · rintro ps rfl
    refine ⟨cv, (String.toList "comment", cv) ::
        (String.toList "thread",
          if ts = [] then JV.jnone else JV.jstr (replaceLF (pyStrip ts))) ::
        (String.toList "published",
          if ps = [] then JV.jnone else JV.jstr (replaceLF (pyStrip ps))) :: r2,
      hcveq, ?_, ?_⟩
    · rw [journal_sanitize_cons_ok (String.toList "comment") c cv _ (by decide) hcveq,
        journal_sanitize_cons_ok (String.toList "thread") (JV.jstr ts) _ _
          (by decide) rfl,
        journal_sanitize_cons_ok (String.toList "published") (JV.jstr ps) _ _
          (by decide) rfl,
        hr2eq]
      rfl
    · simp [jdictGet, List.find?]

/-- C6 counterexample: with a `> Published:` meta line present (so
sanitize_fields does not raise) and a Comment section holding only
`?`, the comment parses to the truthy string `"?"`: the no-change
branch is not taken and journal.main proceeds to the network, where
the claim predicted a falsy field and a skip.  When the edited
document lacks the `> Published:` line, journal.main does not skip
either: sanitize_fields raises an uncaught AttributeError on the
initial datetime value, even if the Comment section was emptied. -/
theorem question_mark_comment_not_skipped :
    journalMainOutcome (String.toList "Daily")
      (String.toList "> Published: 2025-06-01\n# Comment\n?\n") = Except.ok false ∧
    journalParseDoc (String.toList "Daily")
      (String.toList "> Published: 2025-06-01\n# Comment\n?\n") =
      Except.ok [(String.toList "comment", JV.jstr (String.toList "?")),
        (String.toList "thread", JV.jstr (String.toList "Daily")),
        (String.toList "published", JV.jstr (String.toList "2025-06-01"))] ∧
    journalMainOutcome (String.toList "Daily") (String.toList "# Comment\n\n") =
      Except.error PyErr.attributeError := by
  decide

/-- C6 amended: journal.main has three outcomes after the parse loop,
not the two the claim describes.  sanitize_fields raises an uncaught
AttributeError (the program crashes before the skip test) exactly when
no `> Published:` meta line rewrote the initial datetime value;
otherwise the command skips network I/O, prints the no-changes message
and exits 0 exactly when the raw comment is absent (None) or strips to
the empty string -- a `?`-only comment is truthy and is submitted.
update.main compares the comment to the empty string, so it skips
exactly when the parsed comment equals the empty string, and a
document in which the Comment section never appears (comment still
None) is not treated as a no-change there. -/
theorem no_change_detection_characterization (thread0 doc : Str) :
    (journalMainOutcome thread0 doc = Except.error PyErr.attributeError ↔
      jdictGet (journalRawPayload thread0 doc) (String.toList "published") =
        some JV.jdatetime) ∧
    (journalMainOutcome thread0 doc = Except.ok true ↔
      (jdictGet (journalRawPayload thread0 doc) (String.toList "published") ≠
          some JV.jdatetime ∧
        (jdictGet (journalRawPayload thread0 doc) (String.toList "comment") =
            some JV.jnone ∨
          jdictGet (journalRawPayload thread0 doc) (String.toList "comment") =
            some (JV.jstr [])))) ∧
    (updateSkips doc = true ↔
      dictGet (updateParseDoc doc) (String.toList "comment") = some (some [])) := by
  have hupd : updateSkips doc = true ↔
      dictGet (updateParseDoc doc) (String.toList "comment") = some (some []) := by
    unfold updateSkips
    cases hg : dictGet (updateParseDoc doc) (String.toList "comment") with
    | none => simp
    | some v =>
      cases v with
      | none => simp
      | some s => simp [decide_eq_true_eq]
  have hshape : journalShape (journalRawPayload thread0 doc) :=
    journalParseLines_shape (splitLines (univNewlines doc)) (journalInitPayload thread0)
      none []
      ⟨JV.jnone, JV.jstr thread0, JV.jdatetime, [], Or.inl rfl, ⟨thread0, rfl⟩,
        Or.inl rfl, Or.inl rfl, rfl⟩
      (Or.inl rfl)
  have hcc : jdictGet (journalRawPayload thread0 doc) (String.toList "comment") =
        some JV.jnone ∨
      ∃ s, jdictGet (journalRawPayload thread0 doc) (String.toList "comment") =
        some (JV.jstr s) ∧ pyStrip s = s :=
    journal_comment_cell (splitLines (univNewlines doc)) (journalInitPayload thread0)
      none [] (Or.inl rfl) (Or.inl rfl)
  rcases hshape with ⟨c, t, p, rest2, hc, ht, hp, hrest, hd⟩
  have hpub : jdictGet (journalRawPayload thread0 doc) (String.toList "published") =
      some p := by
    rw [hd]; simp [jdictGet, List.find?]
  have hcom : jdictGet (journalRawPayload thread0 doc) (String.toList "comment") =
      some c := by
    rw [hd]; simp [jdictGet, List.find?]
  obtain ⟨hsan_err, hsan_ok⟩ := journal_sanitize_shape c t p rest2 hc ht hrest
  rcases hp with rfl | ⟨ps, rfl⟩
  · have hout : journalMainOutcome thread0 doc = Except.error PyErr.attributeError := by
      unfold journalMainOutcome journalParseDoc
      rw [hd]
      simp only [hsan_err rfl]
    refine ⟨iff_of_true hout hpub, iff_of_false ?_ ?_, hupd⟩
    · rw [hout]
      exact fun h => Except.noConfusion h
    · exact fun hr => hr.1 hpub
  · obtain ⟨cv, d2, hcveq, hsan, hd2get⟩ := hsan_ok ps rfl
    have hout : journalMainOutcome thread0 doc = Except.ok (jvFalsy cv) := by
      unfold journalMainOutcome journalParseDoc
      rw [hd]
      simp only [hsan, hd2get]
    have hne : jdictGet (journalRawPayload thread0 doc) (String.toList "published") ≠
        some JV.jdatetime := by
      rw [hpub]
      exact fun h => JV.noConfusion (Option.some.inj h)
    refine ⟨iff_of_false ?_ hne, ?_, hupd⟩
    · rw [hout]
      exact fun h => Except.noConfusion h
    · rcases hcc with hcn | ⟨s, hcs, hstrip⟩
      · have hceq : c = JV.jnone := by
          rw [hcom] at hcn
          exact Option.some.inj hcn
        subst hceq
        have hcv2 : cv = JV.jnone := by
          have h2 : (Except.ok JV.jnone : Except PyErr JV) = Except.ok cv := hcveq
          injection h2 with h3
          exact h3.symm
        subst hcv2
        refine iff_of_true ?_ ⟨hne, Or.inl hcom⟩
        rw [hout]
        rfl
      · have hceq : c = JV.jstr s := by
          rw [hcom] at hcs
          exact Option.some.inj hcs
        subst hceq
        by_cases hse : s = []
        · subst hse
          have hcv2 : cv = JV.jnone := by
            have h2 : (Except.ok JV.jnone : Except PyErr JV) = Except.ok cv := hcveq
            injection h2 with h3
            exact h3.symm
          subst hcv2
          refine iff_of_true ?_ ⟨hne, Or.inr hcom⟩
          rw [hout]
          rfl
        · have hcv2 : cv = JV.jstr (replaceLF s) := by
            have h2 : (Except.ok (JV.jstr (replaceLF (pyStrip s))) : Except PyErr JV) =
                Except.ok cv := by
              rw [← hcveq]
              simp [jSanitizeString, hse]
            rw [hstrip] at h2
            injection h2 with h3
            exact h3.symm
          subst hcv2
          have hfalse : jvFalsy (JV.jstr (replaceLF s)) = false := by
            simp only [jvFalsy, decide_eq_false_iff_not]
            exact fun h => hse ((replaceLF_eq_nil_iff s).mp h)
          refine iff_of_false ?_ ?_
          · rw [hout, hfalse]
            exact fun h => by injection h with h2; cases h2
          · rintro ⟨-, hdis⟩
            rcases hdis with h1 | h1
            · rw [hcom] at h1
              exact JV.noConfusion (Option.some.inj h1)
            · rw [hcom] at h1
              have h2 := Option.some.inj h1
              injection h2 with h3
              exact hse h3

-- C4 apparatus: matcher behavior on the rendered lines

theorem contains_nl_false (v : Str) (hv : '\n' ∉ v) : v.contains '\n' = false := by
  cases h : v.contains '\n' with
  | false => rfl
  | true =>
    exact absurd (List.elem_iff.mp h) hv

theorem isPrefixOf_append_self (l v : Str) : l.isPrefixOf (l ++ v) = true :=
  List.isPrefixOf_iff_prefix.mpr (List.prefix_append l v)

theorem not_prefix_of_not_sub (p q v : Str) (hpq : p <+: q)
    (h : ¬ p.isPrefixOf v = true) : q.isPrefixOf v = false := by
  cases hq : q.isPrefixOf v with
  | false => rfl
  | true =>
    exact absurd (List.isPrefixOf_iff_prefix.mpr
      (hpq.trans (List.isPrefixOf_iff_prefix.mp hq))) h

theorem obsMetaMatch_date (v : Str) (hv : '\n' ∉ v) :
    obsMetaMatch ((String.toList "> Date: " ++ v) ++ ['\n']) =
      some (String.toList "Date", v) := by
  unfold obsMetaMatch
  rw [chopNl_concat]
  have hcont : (String.toList "> Date: " ++ v).contains '\n' = false :=
    contains_nl_false _ (by
      intro h
      rcases List.mem_append.mp h with h1 | h1
      · exact absurd h1 (by decide)
      · exact hv h1)
  rw [hcont]
  simp only [Bool.false_eq_true, if_false, isPrefixOf_append_self, if_true]
  rw [show (8 : Nat) = (String.toList "> Date: ").length from by decide, List.drop_left]

theorem obsMetaMatch_thread (v : Str) (hv : '\n' ∉ v) :
    obsMetaMatch ((String.toList "> Thread: " ++ v) ++ ['\n']) =
      some (String.toList "Thread", v) := by
  unfold obsMetaMatch
  rw [chopNl_concat]
  have hcont : (String.toList "> Thread: " ++ v).contains '\n' = false :=
    contains_nl_false _ (by
      intro h
      rcases List.mem_append.mp h with h1 | h1
      · exact absurd h1 (by decide)
      · exact hv h1)
  rw [hcont]
  have h1 : (String.toList "> Date: ").isPrefixOf (String.toList "> Thread: " ++ v) = false := by
    cases hq : (String.toList "> Date: ").isPrefixOf (String.toList "> Thread: " ++ v) with
    | false => rfl
    | true =>
      have := List.isPrefixOf_iff_prefix.mp hq
      rcases this with ⟨t2, ht2⟩
      have := congrArg (fun l => l.take 4) ht2
      simp at this
  rw [h1]
  simp only [Bool.false_eq_true, if_false, isPrefixOf_append_self, if_true]
  rw [show (10 : Nat) = (String.toList "> Thread: ").length from by decide, List.drop_left]

theorem obsMetaMatch_type (v : Str) (hv : '\n' ∉ v) :
    obsMetaMatch ((String.toList "> Type: " ++ v) ++ ['\n']) =
      some (String.toList "Type", v) := by
  unfold obsMetaMatch
  rw [chopNl_concat]
  have hcont : (String.toList "> Type: " ++ v).contains '\n' = false :=
    contains_nl_false _ (by
      intro h
      rcases List.mem_append.mp h with h1 | h1
      · exact absurd h1 (by decide)
      · exact hv h1)
  rw [hcont]
  have h1 : (String.toList "> Date: ").isPrefixOf (String.toList "> Type: " ++ v) = false := by
    cases hq : (String.toList "> Date: ").isPrefixOf (String.toList "> Type: " ++ v) with
    | false => rfl
    | true =>
      rcases List.isPrefixOf_iff_prefix.mp hq with ⟨t2, ht2⟩
      have := congrArg (fun l => l.take 4) ht2
      simp at this
  have h2 : (String.toList "> Thread: ").isPrefixOf (String.toList "> Type: " ++ v) = false := by
    cases hq : (String.toList "> Thread: ").isPrefixOf (String.toList "> Type: " ++ v) with
    | false => rfl
    | true =>
      rcases List.isPrefixOf_iff_prefix.mp hq with ⟨t2, ht2⟩
      have := congrArg (fun l => l.take 5) ht2
      simp at this
  rw [h1, h2]
  simp only [Bool.false_eq_true, if_false, isPrefixOf_append_self, if_true]
  rw [show (8 : Nat) = (String.toList "> Type: ").length from by decide, List.drop_left]

theorem obsMetaMatch_body (v : Str) (hv : '\n' ∉ v)
    (h : ¬ (String.toList "> ").isPrefixOf v = true) :
    obsMetaMatch (v ++ ['\n']) = none := by
  unfold obsMetaMatch
  have hpre : (String.toList "> ") <+: (String.toList "> Date: ") :=
    List.isPrefixOf_iff_prefix.mp (by decide)
  have hpre2 : (String.toList "> ") <+: (String.toList "> Thread: ") :=
    List.isPrefixOf_iff_prefix.mp (by decide)
  have hpre3 : (String.toList "> ") <+: (String.toList "> Type: ") :=
    List.isPrefixOf_iff_prefix.mp (by decide)
  rw [chopNl_concat, contains_nl_false v hv,
    not_prefix_of_not_sub _ _ _ hpre h,
    not_prefix_of_not_sub _ _ _ hpre2 h,
    not_prefix_of_not_sub _ _ _ hpre3 h]
  simp

theorem prefix_two_lift (c1 c2 : Char) (w v : Str) (hc2 : c2 ≠ '\n')
    (h : (c1 :: c2 :: w).isPrefixOf (v ++ ['\n']) = true) :
    (c1 :: c2 :: ([] : Str)).isPrefixOf v = true := by
  cases v with
  | nil => simp [List.isPrefixOf] at h
  | cons x xs =>
    cases xs with
    | nil =>
      simp [List.isPrefixOf] at h
      exact absurd h.2.1 hc2
    | cons y ys =>
      simp only [List.cons_append, List.isPrefixOf, Bool.and_eq_true, beq_iff_eq] at h ⊢
      exact ⟨h.1, h.2.1, trivial⟩

theorem obsTitleMatch_body (v : Str)
    (h : ¬ (String.toList "# ").isPrefixOf v = true) :
    obsTitleMatch (v ++ ['\n']) = none := by
  have key : ∀ w : Str, ('#' :: ' ' :: w).isPrefixOf (v ++ ['\n']) = false := by
    intro w
    cases hq : ('#' :: ' ' :: w).isPrefixOf (v ++ ['\n']) with
    | false => rfl
    | true =>
      have := prefix_two_lift '#' ' ' w v (by decide) hq
      exact absurd (by simpa using this) h
  unfold obsTitleMatch
  have h1 : (String.toList "# Situation").isPrefixOf (v ++ ['\n']) = false := by
    rw [show String.toList "# Situation" = '#' :: ' ' :: String.toList "Situation" from by decide]
    exact key _
  have h2 : (String.toList "# Interpretation").isPrefixOf (v ++ ['\n']) = false := by
    rw [show String.toList "# Interpretation" =
      '#' :: ' ' :: String.toList "Interpretation" from by decide]
    exact key _
  have h3 : (String.toList "# Approach").isPrefixOf (v ++ ['\n']) = false := by
    rw [show String.toList "# Approach" = '#' :: ' ' :: String.toList "Approach" from by decide]
    exact key _
  rw [h1, h2, h3]
  simp

theorem splitLines_line2 (u v rest : Str) (hu : '\n' ∉ u) (hv : '\n' ∉ v) :
    splitLines (u ++ (v ++ '\n' :: rest)) = ((u ++ v) ++ ['\n']) :: splitLines rest := by
  rw [← List.append_assoc]
  exact splitLines_line (u ++ v) rest (by
    intro h
    rcases List.mem_append.mp h with h1 | h1
    · exact hu h1
    · exact hv h1)

theorem pyLStrip_nl (x : Str) : pyLStrip ('\n' :: x) = pyLStrip x := by
  simp [pyLStrip, List.dropWhile, show isPySpace '\n' = true from by decide]

theorem obs_template_normal (d t ty s i a : Str) :
    template_from_payload d t ty s i a =
      String.toList "> Date: " ++ (d ++ ('\n' :: (String.toList "> Thread: " ++ (t ++ ('\n' :: (String.toList "> Type: " ++ (ty ++ ('\n' :: ('\n' :: (String.toList "# Situation (What happened?)" ++ ('\n' :: ('\n' :: (s ++ ('\n' :: ('\n' :: (String.toList "# Interpretation (How you saw it, what you felt?)" ++ ('\n' :: ('\n' :: (i ++ ('\n' :: ('\n' :: (String.toList "# Approach (How should you approach it in the future?)" ++ ('\n' :: ('\n' :: (a ++ ['\n', '\n']))))))))))))))))))))))))) := by
  unfold template_from_payload obsTemplate
  rw [show String.toList "\n> Date: " = '\n' :: String.toList "> Date: " from by decide,
    show String.toList "\n> Thread: " = '\n' :: String.toList "> Thread: " from by decide,
    show String.toList "\n> Type: " = '\n' :: String.toList "> Type: " from by decide,
    show String.toList "\n\n# Situation (What happened?)\n\n" =
      '\n' :: '\n' :: (String.toList "# Situation (What happened?)" ++ ['\n', '\n'])
      from by decide,
    show String.toList "\n\n# Interpretation (How you saw it, what you felt?)\n\n" =
      '\n' :: '\n' ::
        (String.toList "# Interpretation (How you saw it, what you felt?)" ++ ['\n', '\n'])
      from by decide,
    show String.toList "\n\n# Approach (How should you approach it in the future?)\n\n" =
      '\n' :: '\n' ::
        (String.toList "# Approach (How should you approach it in the future?)" ++ ['\n', '\n'])
      from by decide,
    show String.toList "\n\n" = ['\n', '\n'] from by decide]
  simp only [List.cons_append, List.append_assoc, List.nil_append]
  rw [pyLStrip_nl]
  rw [show String.toList "> Date: " = '>' :: String.toList " Date: " from by decide]
  simp only [List.cons_append]
  have hgt : ∀ x : Str, pyLStrip ('>' :: x) = '>' :: x := by
    intro x
    unfold pyLStrip
    exact dropWhile_eq_self_head _ _ (by decide)
  rw [hgt]

theorem obs_template_lines (d t ty s i a : Str)
    (hd2 : '\n' ∉ d) (ht2 : '\n' ∉ t) (hy2 : '\n' ∉ ty)
    (hs2 : '\n' ∉ s) (hi2 : '\n' ∉ i) (ha2 : '\n' ∉ a) :
    splitLines (template_from_payload d t ty s i a) =
      [(String.toList "> Date: " ++ d) ++ ['\n'],
       (String.toList "> Thread: " ++ t) ++ ['\n'],
       (String.toList "> Type: " ++ ty) ++ ['\n'],
       ['\n'],
       String.toList "# Situation (What happened?)" ++ ['\n'],
       ['\n'],
       s ++ ['\n'],
       ['\n'],
       String.toList "# Interpretation (How you saw it, what you felt?)" ++ ['\n'],
       ['\n'],
       i ++ ['\n'],
       ['\n'],
       String.toList "# Approach (How should you approach it in the future?)" ++ ['\n'],
       ['\n'],
       a ++ ['\n'],
       ['\n']] := by
  rw [obs_template_normal]
  rw [splitLines_line2 _ _ _ (by decide) hd2]
  rw [splitLines_line2 _ _ _ (by decide) ht2]
  rw [splitLines_line2 _ _ _ (by decide) hy2]
  rw [splitLines_nl]
  rw [splitLines_line _ _ (by decide)]
  rw [splitLines_nl]
  rw [splitLines_line _ _ hs2]
  rw [splitLines_nl]
  rw [splitLines_line _ _ (by decide)]
  rw [splitLines_nl]
  rw [splitLines_line _ _ hi2]
  rw [splitLines_nl]
  rw [splitLines_line _ _ (by decide)]
  rw [splitLines_nl]
  rw [splitLines_line _ _ ha2]
  rw [splitLines_nl]
  rfl

theorem univNewlines_cons_nl (z : Str) :
    univNewlines ('\n' :: z) = '\n' :: univNewlines z := rfl

theorem univNewlines_append_noCR (x y : Str) (hx : '\r' ∉ x) :
    univNewlines (x ++ y) = x ++ univNewlines y := by
  induction x with
  | nil => rfl
  | cons c cs ih =>
    have hc : c ≠ '\r' := fun hh => hx (hh ▸ List.mem_cons_self c cs)
    have hcs : '\r' ∉ cs := fun hh => hx (List.mem_cons_of_mem _ hh)
    rw [List.cons_append, univNewlines.eq_def]
    split
    next heq => cases heq
    next heq =>
      injection heq with h1 h2
      exact absurd h1 hc
    next heq =>
      injection heq with h1 h2
      exact absurd h1 hc
    next heq =>
      injection heq with h1 h2
      subst h1
      rw [← h2, ih hcs]
      rfl

theorem univNewlines_template (d t ty s i a : Str)
    (hd3 : '\r' ∉ d) (ht3 : '\r' ∉ t) (hy3 : '\r' ∉ ty)
    (hs3 : '\r' ∉ s) (hi3 : '\r' ∉ i) (ha3 : '\r' ∉ a) :
    univNewlines (template_from_payload d t ty s i a) =
      template_from_payload d t ty s i a := by
  rw [obs_template_normal]
  rw [univNewlines_append_noCR _ _ (by decide)]
  rw [univNewlines_append_noCR _ _ hd3]
  rw [univNewlines_cons_nl]
  rw [univNewlines_append_noCR _ _ (by decide)]
  rw [univNewlines_append_noCR _ _ ht3]
  rw [univNewlines_cons_nl]
  rw [univNewlines_append_noCR _ _ (by decide)]
  rw [univNewlines_append_noCR _ _ hy3]
  rw [univNewlines_cons_nl, univNewlines_cons_nl]
  rw [univNewlines_append_noCR _ _ (by decide)]
  rw [univNewlines_cons_nl, univNewlines_cons_nl]
  rw [univNewlines_append_noCR _ _ hs3]
  rw [univNewlines_cons_nl, univNewlines_cons_nl]
  rw [univNewlines_append_noCR _ _ (by decide)]
  rw [univNewlines_cons_nl, univNewlines_cons_nl]
  rw [univNewlines_append_noCR _ _ hi3]
  rw [univNewlines_cons_nl, univNewlines_cons_nl]
  rw [univNewlines_append_noCR _ _ (by decide)]
  rw [univNewlines_cons_nl, univNewlines_cons_nl]
  rw [univNewlines_append_noCR _ _ ha3]
  rw [show univNewlines ['\n', '\n'] = ['\n', '\n'] from rfl]


set_option maxHeartbeats 1000000 in
/-- C4 amended: parse(render(record)) reproduces every field of the
record exactly when each field value is non-empty, already stripped
(no leading/trailing whitespace), contains no newline or carriage
return, and no section value begins with a `> ` or `# ` line prefix.
Values with internal bare newlines are excluded: sanitize_string turns
each `\n` into `\r\n`, so they do not round-trip exactly (see the
counterexample). -/
theorem observation_round_trip (d t ty s i a : Str)
    (hd1 : d ≠ []) (hd2 : '\n' ∉ d) (hd3 : '\r' ∉ d) (hd4 : pyStrip d = d)
    (ht1 : t ≠ []) (ht2 : '\n' ∉ t) (ht3 : '\r' ∉ t) (ht4 : pyStrip t = t)
    (hy1 : ty ≠ []) (hy2 : '\n' ∉ ty) (hy3 : '\r' ∉ ty) (hy4 : pyStrip ty = ty)
    (hs1 : s ≠ []) (hs2 : '\n' ∉ s) (hs3 : '\r' ∉ s) (hs4 : pyStrip s = s)
    (hs5 : ¬ (String.toList "> ").isPrefixOf s = true)
    (hs6 : ¬ (String.toList "# ").isPrefixOf s = true)
    (hi1 : i ≠ []) (hi2 : '\n' ∉ i) (hi3 : '\r' ∉ i) (hi4 : pyStrip i = i)
    (hi5 : ¬ (String.toList "> ").isPrefixOf i = true)
    (hi6 : ¬ (String.toList "# ").isPrefixOf i = true)
    (ha1 : a ≠ []) (ha2 : '\n' ∉ a) (ha3 : '\r' ∉ a) (ha4 : pyStrip a = a)
    (ha5 : ¬ (String.toList "> ").isPrefixOf a = true)
    (ha6 : ¬ (String.toList "# ").isPrefixOf a = true) :
    obsRoundTrip d t ty s i a =
      [(String.toList "pub_date", some d), (String.toList "thread", some t),
       (String.toList "type", some ty), (String.toList "situation", some s),
       (String.toList "interpretation", some i), (String.toList "approach", some a)] := by
  unfold obsRoundTrip obsParseDoc
  rw [univNewlines_template d t ty s i a hd3 ht3 hy3 hs3 hi3 ha3]
  rw [obs_template_lines d t ty s i a hd2 ht2 hy2 hs2 hi2 ha2]
  have hpadS : pyStrip ('\n' :: (s ++ ['\n', '\n'])) = s := by
    have h0 := pyStrip_pad ['\n'] s ['\n', '\n'] (by decide) (by decide) hs4
    simpa using h0
  have hpadI : pyStrip ('\n' :: (i ++ ['\n', '\n'])) = i := by
    have h0 := pyStrip_pad ['\n'] i ['\n', '\n'] (by decide) (by decide) hi4
    simpa using h0
  have hpadA : pyStrip ('\n' :: (a ++ ['\n', '\n'])) = a := by
    have h0 := pyStrip_pad ['\n'] a ['\n', '\n'] (by decide) (by decide) ha4
    simpa using h0
  simp only [obsParseLines,
    obsMetaMatch_date d hd2, obsMetaMatch_thread t ht2, obsMetaMatch_type ty hy2,
    obsMetaMatch_body s hs2 hs5, obsMetaMatch_body i hi2 hi5, obsMetaMatch_body a ha2 ha5,
    obsTitleMatch_body s hs6, obsTitleMatch_body i hi6, obsTitleMatch_body a ha6,
    (by decide : obsMetaMatch ['\n'] = none),
    (by decide : obsTitleMatch ['\n'] = none),
    (by decide : obsMetaMatch (String.toList "# Situation (What happened?)" ++ ['\n']) = none),
    (by decide : obsTitleMatch (String.toList "# Situation (What happened?)" ++ ['\n']) =
      some (String.toList "Situation")),
    (by decide : obsMetaMatch
      (String.toList "# Interpretation (How you saw it, what you felt?)" ++ ['\n']) = none),
    (by decide : obsTitleMatch
      (String.toList "# Interpretation (How you saw it, what you felt?)" ++ ['\n']) =
      some (String.toList "Interpretation")),
    (by decide : obsMetaMatch
      (String.toList "# Approach (How should you approach it in the future?)" ++ ['\n']) = none),
    (by decide : obsTitleMatch
      (String.toList "# Approach (How should you approach it in the future?)" ++ ['\n']) =
      some (String.toList "Approach"))]
  simp [add_meta_to_payload, add_stack_to_payload, joinAll, dictSet, obsInitPayload,
    sanitize_fields, sanitize_string, hd4, ht4, hy4, hpadS, hpadI, hpadA, hd1, ht1, hy1,
    hs1, hi1, ha1, replaceLF_eq_self d hd2, replaceLF_eq_self t ht2, replaceLF_eq_self ty hy2,
    replaceLF_eq_self s hs2, replaceLF_eq_self i hi2, replaceLF_eq_self a ha2,
    (by decide : pyStrip (['D', 'a', 't', 'e'] : Str) = ['D', 'a', 't', 'e']),
    (by decide : pyStrip (['T', 'h', 'r', 'e', 'a', 'd'] : Str) = ['T', 'h', 'r', 'e', 'a', 'd']),
    (by decide : pyStrip (['T', 'y', 'p', 'e'] : Str) = ['T', 'y', 'p', 'e']),
    (by decide : pyStrip (['S', 'i', 't', 'u', 'a', 't', 'i', 'o', 'n'] : Str) = ['S', 'i', 't', 'u', 'a', 't', 'i', 'o', 'n']),
    (by decide : pyStrip (['I', 'n', 't', 'e', 'r', 'p', 'r', 'e', 't', 'a', 't', 'i', 'o', 'n'] : Str) = ['I', 'n', 't', 'e', 'r', 'p', 'r', 'e', 't', 'a', 't', 'i', 'o', 'n']),
    (by decide : pyStrip (['A', 'p', 'p', 'r', 'o', 'a', 'c', 'h'] : Str) = ['A', 'p', 'p', 'r', 'o', 'a', 'c', 'h']),
    (by decide : pyLower (['p', 'u', 'b', '_', 'd', 'a', 't', 'e'] : Str) = ['p', 'u', 'b', '_', 'd', 'a', 't', 'e']),
    (by decide : pyLower (['T', 'h', 'r', 'e', 'a', 'd'] : Str) = ['t', 'h', 'r', 'e', 'a', 'd']),
    (by decide : pyLower (['T', 'y', 'p', 'e'] : Str) = ['t', 'y', 'p', 'e']),
    (by decide : pyLower (['S', 'i', 't', 'u', 'a', 't', 'i', 'o', 'n'] : Str) = ['s', 'i', 't', 'u', 'a', 't', 'i', 'o', 'n']),
    (by decide : pyLower (['I', 'n', 't', 'e', 'r', 'p', 'r', 'e', 't', 'a', 't', 'i', 'o', 'n'] : Str) = ['i', 'n', 't', 'e', 'r', 'p', 'r', 'e', 't', 'a', 't', 'i', 'o', 'n']),
    (by decide : pyLower (['A', 'p', 'p', 'r', 'o', 'a', 'c', 'h'] : Str) = ['a', 'p', 'p', 'r', 'o', 'a', 'c', 'h'])]
  refine ⟨?_, ?_, ?_⟩
  · rw [hs4]; exact replaceLF_eq_self s hs2
  · rw [hi4]; exact replaceLF_eq_self i hi2
  · rw [ha4]; exact replaceLF_eq_self a ha2

/-- C4 counterexample: a situation value with an internal bare newline
comes back from the round trip with `\r\n` instead, so the record is
not reproduced exactly even though the value contains no `> ` or `# `
prefixed line. -/
theorem round_trip_newline_counterexample :
    dictGet (obsRoundTrip (String.toList "2025-01-01") (String.toList "big-picture")
      (String.toList "observation") (String.toList "a\nb") (String.toList "I")
      (String.toList "A")) (String.toList "situation") =
      some (some (String.toList "a\r\nb")) ∧
    String.toList "a\r\nb" ≠ String.toList "a\nb" := by
  decide

/-- Witness for the amended C4 at a concrete record. -/
theorem observation_round_trip_witness :
    pyStrip (String.toList "Something happened") = String.toList "Something happened" ∧
    obsRoundTrip (String.toList "2025-01-01") (String.toList "big-picture")
      (String.toList "observation") (String.toList "Something happened")
      (String.toList "I felt it") (String.toList "Be careful") =
      [(String.toList "pub_date", some (String.toList "2025-01-01")),
       (String.toList "thread", some (String.toList "big-picture")),
       (String.toList "type", some (String.toList "observation")),
       (String.toList "situation", some (String.toList "Something happened")),
       (String.toList "interpretation", some (String.toList "I felt it")),
       (String.toList "approach", some (String.toList "Be careful"))] :=
  ⟨by decide,
    observation_round_trip _ _ _ _ _ _
      (by decide) (by decide) (by decide) (by decide)
      (by decide) (by decide) (by decide) (by decide)
      (by decide) (by decide) (by decide) (by decide)
      (by decide) (by decide) (by decide) (by decide) (by decide) (by decide)
      (by decide) (by decide) (by decide) (by decide) (by decide) (by decide)
      (by decide) (by decide) (by decide) (by decide) (by decide) (by decide)⟩
